import Mathlib

/-!
# bash_fn_parse: `src/main.c`

A shallow embedding of `src/main.c`: the parser in `main` (lines 108-161),
the computation of the output directory name (lines 69-80), `rm_rf` (lines
33-59) and `main` as a whole.

* A C `char` is a `Char`; a buffer (or the part of it a pointer points into)
  is a `List Char`, the pointer being the head of the list.
* `strchr`, `strlen`, `memcmp` and `snprintf("%s/%s")` are modelled on such
  buffers with their C meaning (NUL-terminated strings).
* The files the run creates are an association list from the name of a file
  to its bytes, in order of creation.  It is empty when the loop starts
  (the directory has just been made by `mkdir`).
* `creat` is a system call: what a call gives is read from an oracle
  `creat_ok k path`, `k` being the number of `creat` calls made before:
  failure, or the file the call opens, named by its resolved path.
* `write` is taken to write all its bytes at the descriptor's offset.
* For `rm_rf` and `main` the tree below the working directory is a list of
  resolved paths with what stands there; `mkdir`, `rmdir`, `remove` and
  `opendir` act on it and succeed whenever the tree allows it.  The
  recursion of `rm_rf` is bounded by a fuel argument.
* `main` keeps the conversion `int len = my_stat.st_size` and the stack
  array `char buf[len + 1]`: its exit code is `none` when `len` is negative
  or the array does not fit the stack space given as an argument.
-/

namespace BashFnParse

/-! ## C strings -/

/-- The terminator byte of C strings. -/
def NUL : Char := Char.ofNat 0

/-- C `strchr(s, c)`: offset of the first `c` in the NUL-terminated string at
`s`, `none` for a null result.  The terminator itself can be found. -/
def strchr : List Char → Char → Option Nat
  | [], _ => none
  | x :: xs, c =>
    if x = c then some 0
    else if x = NUL then none
    else (strchr xs c).map (· + 1)

/-- C `strlen(s)`. -/
def strlen : List Char → Nat
  | [] => 0
  | x :: xs => if x = NUL then 0 else strlen xs + 1

/-- The bytes of the C string at `s`, terminator excluded: what `%s` prints
and what `write(fd, s, strlen(s))` writes. -/
def cstr (s : List Char) : List Char := s.take (strlen s)

/-- C `memcmp(a, b, n) == 0`.  A window that runs off the end of the buffer
compares unequal: in this program such a window always holds the
terminator of the line at an offset where the pattern has another byte. -/
def memcmp_eq (a b : List Char) (n : Nat) : Bool :=
  decide (a.take n = b.take n)

/-- C `snprintf(buf, n, "%s/%s", dir, name)`: the C string left in `buf`,
at most `n - 1` bytes of the formatted text. -/
def snprintf_path (n : Nat) (dir name : List Char) : List Char :=
  (cstr dir ++ '/' :: cstr name).take (n - 1)

/-! ## Files of the output directory -/

/-- An open file description: the file it refers to (by its resolved name)
and its offset. -/
structure OpenFile where
  path : List Char
  offset : Nat
deriving DecidableEq, Repr

/-- The files created: resolved name of a file and its content, in order of
creation. -/
abbrev Files := List (List Char × List Char)

/-- The state of the parsing loop. -/
structure ParseState where
  /-- `curr_fn_file`; `none` is the descriptor `-1`. -/
  curr_fn_file : Option OpenFile
  /-- the files of the output directory -/
  files : Files
  /-- the number of `creat` calls made so far -/
  ncreat : Nat
deriving DecidableEq, Repr

/-- Content of the file at `path`, `none` when there is no such file. -/
def fs_lookup : Files → List Char → Option (List Char)
  | [], _ => none
  | (p, c) :: fs, path => if p = path then some c else fs_lookup fs path

/-- The files after a successful `creat` that opens the file `path` (a
resolved name): the file is made empty if it exists and added empty
otherwise. -/
def fs_creat : Files → List Char → Files
  | [], path => [(path, [])]
  | (p, c) :: fs, path =>
    if p = path then (p, []) :: fs else (p, c) :: fs_creat fs path

/-- Bytes of a file after writing `data` at offset `off` (a hole is
zero-filled). -/
def write_at (content : List Char) (off : Nat) (data : List Char) : List Char :=
  content.take off ++ List.replicate (off - content.length) NUL ++ data
    ++ content.drop (off + data.length)

/-- The directory after `data` is written at offset `off` of the file
`path`. -/
def fs_write : Files → List Char → Nat → List Char → Files
  | [], _, _, _ => []
  | (p, c) :: fs, path, off, data =>
    if p = path then (p, write_at c off data) :: fs
    else (p, c) :: fs_write fs path off data

/-- The outcome of the calls of `creat`, a system call: `creat_ok k path` is
what the call number `k` (counted from 0) gives on `path`, `none` when it
fails (the result `-1`), otherwise the file it opens, named by the path
the system resolves `path` to: `path` itself unless it reaches the file
through `.`, `..`, an empty component or a link.  Two calls that open the
same file give the same name. -/
abbrev CreatEnv := Nat → List Char → Option (List Char)

/-- The call `curr_fn_file = creat(path, 0755)`: on success the file the
call opens is empty and the new descriptor is at its start. -/
def do_creat (creat_ok : CreatEnv) (path : List Char)
    (st : ParseState) : ParseState :=
  match creat_ok st.ncreat path with
  | some file =>
    { curr_fn_file := some { path := file, offset := 0 }
      files := fs_creat st.files file
      ncreat := st.ncreat + 1 }
  | none =>
    { curr_fn_file := none, files := st.files, ncreat := st.ncreat + 1 }

/-- The call `write(curr_fn_file, data, len)`: the bytes go to the file of
the open description at its offset, which advances.  On the descriptor `-1`
the call fails and nothing is written. -/
def do_write (data : List Char) (st : ParseState) : ParseState :=
  match st.curr_fn_file with
  | some f =>
    { curr_fn_file := some { path := f.path, offset := f.offset + data.length }
      files := fs_write st.files f.path f.offset data
      ncreat := st.ncreat }
  | none => st

/-! ## The parsing loop -/

/-- The header test of line 139, on the buffer at `line_base` once the
newline has been overwritten with NUL:
`left_paren && memcmp(left_paren, "() \0", 4) == 0`. -/
def header_test (line_base : List Char) : Bool :=
  match strchr line_base '(' with
  | some left_paren => memcmp_eq (line_base.drop left_paren) ['(', ')', ' ', NUL] 4
  | none => false

/-- The delimiter test of lines 150-151:
`memcmp(line_base, "{ \0", 2) == 0 || memcmp(line_base, "}\0", 2) == 0`. -/
def delim_test (line_base : List Char) : Bool :=
  memcmp_eq line_base ['{', ' ', NUL, NUL] 2 || memcmp_eq line_base ['}', NUL, NUL] 2

/-- The body of the `while` loop (lines 119-158) for the line that starts at
`line_base` and whose newline is at offset `newline`. -/
def parseLine (creat_ok : CreatEnv) (output_path : List Char)
    (line_base : List Char) (newline : Nat) (st : ParseState) : ParseState :=
  let buf := line_base.set newline NUL
  if header_test buf then
    match strchr buf ' ' with
    | some space =>
      let fn_name := buf.set space NUL
      let fn_name_path_buf := snprintf_path 128 output_path fn_name
      do_creat creat_ok fn_name_path_buf st
    | none => st
  else if delim_test buf then st
  else if st.curr_fn_file ≠ none then
    do_write ['\n'] (do_write (cstr buf) st)
  else st

/-- The `while ((newline = strchr(line_base, '\n')))` loop; `fuel` bounds the
number of iterations. -/
def parseLoop (creat_ok : CreatEnv) (output_path : List Char) :
    Nat → List Char → ParseState → ParseState
  | 0, _, st => st
  | fuel + 1, line_base, st =>
    match strchr line_base '\n' with
    | none => st
    | some newline =>
      parseLoop creat_ok output_path fuel (line_base.drop (newline + 1))
        (parseLine creat_ok output_path line_base newline st)

/-- The state in which the loop starts: `curr_fn_file = -1`, an empty output
directory. -/
def initState : ParseState := { curr_fn_file := none, files := [], ncreat := 0 }

/-- The parser run on the bytes of the input file: `buf` is the input
followed by NUL, and every iteration consumes at least one byte of it. -/
def parse (creat_ok : CreatEnv) (output_path : List Char)
    (input : List Char) : ParseState :=
  let buf := input ++ [NUL]
  parseLoop creat_ok output_path buf.length buf initState

/-! ## Vocabulary of the statements -/

/-- A line as the loop sees it: it holds neither a newline nor a NUL. -/
def CleanLine (l : List Char) : Prop := '\n' ∉ l ∧ NUL ∉ l

/-- The text made of the given lines, each followed by a newline. -/
def unlines : List (List Char) → List Char
  | [] => []
  | l :: ls => l ++ '\n' :: unlines ls

/-- The header test of the loop on a line standing alone. -/
def isHeader (l : List Char) : Bool := header_test (l ++ [NUL])

/-- The delimiter test of the loop on a line standing alone. -/
def isDelim (l : List Char) : Bool := delim_test (l ++ [NUL])

/-- The part of a line before its first space. -/
def fnName (l : List Char) : List Char := l.takeWhile (· ≠ ' ')

/-- The path `<output directory>/<name>`. -/
def artifactPath (output_path name : List Char) : List Char :=
  output_path ++ '/' :: name

/-- What one iteration of the loop does with a clean line, by the class of
the line (shown equal to `parseLine` in `parseLine_clean`). -/
def lineStep (creat_ok : CreatEnv) (output_path : List Char)
    (st : ParseState) (l : List Char) : ParseState :=
  if isHeader l then do_creat creat_ok (snprintf_path 128 output_path (fnName l)) st
  else if isDelim l then st
  else if st.curr_fn_file ≠ none then do_write ['\n'] (do_write l st)
  else st

/-! ## Predicates used in the proofs -/

/-- The descriptor `curr_fn_file` is open on the file `p`, whose content is
`c`, with its offset at the end of the file. -/
def Target (p c : List Char) (st : ParseState) : Prop :=
  st.curr_fn_file = some { path := p, offset := c.length } ∧ fs_lookup st.files p = some c

/-- The bytes a line that is no header adds to the active artifact. -/
def bodyBytes (l : List Char) : List Char := if isDelim l then [] else l ++ ['\n']

/-- The descriptor `curr_fn_file` is not open on the file `p`. -/
def NotTarget (p : List Char) (st : ParseState) : Prop :=
  ∀ f, st.curr_fn_file = some f → f.path ≠ p

/-- The directory is `fs0` followed by the file `p` with content `c`, and the
descriptor is open on `p` at the end of the file. -/
def LastTarget (fs0 : Files) (p c : List Char) (st : ParseState) : Prop :=
  st.files = fs0 ++ [(p, c)] ∧ st.curr_fn_file = some { path := p, offset := c.length }

/-- Every file of the directory is made of newline-terminated lines none of
which passes the delimiter test. -/
def FilesOk (fs : Files) : Prop :=
  ∀ p c, fs_lookup fs p = some c →
    ∃ ls, c = unlines ls ∧ ∀ l ∈ ls, '\n' ∉ l ∧ isDelim l = false

/-- The invariant of the loop: an open descriptor refers to a file of the
directory with its offset at the end of the file, and the files are made of
body lines. -/
def Inv (st : ParseState) : Prop :=
  (∀ f, st.curr_fn_file = some f →
    ∃ c, fs_lookup st.files f.path = some c ∧ f.offset = c.length) ∧ FilesOk st.files

/-! ## Well-formed blocks -/

/-- One function of the dump: its name and the lines of its body. -/
structure Block where
  name : List Char
  body : List (List Char)

/-- The lines of a block as `declare -f` prints them: the header
`name () `, the line `{ `, the body, the line `}`. -/
def Block.lines (b : Block) : List (List Char) :=
  (b.name ++ [' ', '(', ')', ' ']) :: ['{', ' '] :: (b.body ++ [['}']])

/-- A block is well formed when its name is a word without space,
parenthesis, newline or NUL and no line of its body is taken for a header
or a delimiter. -/
def Block.WellFormed (b : Block) : Prop :=
  CleanLine b.name ∧ ' ' ∉ b.name ∧ '(' ∉ b.name ∧
    ∀ l ∈ b.body, CleanLine l ∧ isHeader l = false ∧ isDelim l = false

/-- The lines of a sequence of blocks. -/
def blocksLines : List Block → List (List Char)
  | [] => []
  | b :: bs => b.lines ++ blocksLines bs

/-- The artifact a block is expected to give: its path and its bytes. -/
def Block.artifact (out : List Char) (b : Block) : List Char × List Char :=
  (artifactPath out b.name, unlines b.body)

instance (l : List Char) : Decidable (CleanLine l) := by
  unfold CleanLine; infer_instance

instance (b : Block) : Decidable b.WellFormed := by
  unfold Block.WellFormed; infer_instance

/-! ## The delimiter lines of a dump -/

/-- The two delimiter lines as the shell prints them: `{ ` and `}`. -/
def isBraceLine (l : List Char) : Bool := decide (l = ['{', ' '] ∨ l = ['}'])

/-- The line does not start with `{ ` followed by more text (the lines that
the two-byte delimiter test takes for `{ `). -/
def NoBracePrefix (l : List Char) : Prop := l.take 2 = ['{', ' '] → l = ['{', ' ']

instance (l : List Char) : Decidable (NoBracePrefix l) := by
  unfold NoBracePrefix; infer_instance

/-! ## The output directory name (lines 69-80) -/

/-- C `strrchr(s, c)`: offset of the last `c` in the NUL-terminated string at
`s`, `none` for a null result. -/
def strrchr : List Char → Char → Option Nat
  | [], _ => none
  | x :: xs, c =>
    if x = NUL then (if c = NUL then some 0 else none)
    else
      match strrchr xs c with
      | some i => some (i + 1)
      | none => if x = c then some 0 else none

/-- C `snprintf(buf, n, "fn_output_%s", s)`: the C string left in `buf`. -/
def snprintf_output (n : Nat) (s : List Char) : List Char :=
  ("fn_output_".toList ++ cstr s).take (n - 1)

/-- The block of lines 69-80: `output_path` for the C string `filepath`
(`basename` is the text after the last `/`, or `filepath` itself). -/
def output_path_of (filepath : List Char) : List Char :=
  let basename :=
    match strrchr filepath '/' with
    | some slash => filepath.drop (slash + 1)
    | none => filepath
  snprintf_output 64 basename

/-! ## The creat call (lines 141-148) -/

/-- The arguments of the call `creat(fn_name_path_buf, 0755)` that the
iteration makes for the line in `buf` (newline already overwritten), `none`
when it makes no such call. -/
def creat_call (output_path buf : List Char) : Option (List Char × Nat) :=
  if header_test buf then
    match strchr buf ' ' with
    | some space => some (snprintf_path 128 output_path (buf.set space NUL), 0o755)
    | none => none
  else none

/-! ## The directory tree below the working directory -/

/-- What stands at a path: a regular file with its bytes, or a directory. -/
inductive Kind where
  | file (content : List Char)
  | dir
deriving DecidableEq, Repr

/-- The tree below the working directory: the components of a path and what
stands there.  The working directory itself is the empty path. -/
abbrev Tree := List (List (List Char) × Kind)

/-- The pieces of a path between its slashes. -/
def splitSlash : List Char → List Char → List (List Char)
  | [], cur => [cur.reverse]
  | c :: cs, cur =>
    if c = '/' then cur.reverse :: splitSlash cs [] else splitSlash cs (c :: cur)

/-- The components a relative path resolves to: empty pieces and `.` are
skipped, `..` drops the last component; `none` when the path leaves the
working directory. -/
def resolve (path : List Char) : Option (List (List Char)) :=
  (splitSlash path []).foldl
    (fun acc c =>
      match acc with
      | none => none
      | some st =>
        if c = [] ∨ c = ['.'] then some st
        else if c = ['.', '.'] then (if st = [] then none else some st.dropLast)
        else some (st ++ [c]))
    (some [])

/-- What stands at the components `k`. -/
def Tree.kind (t : Tree) (k : List (List Char)) : Option Kind :=
  if k = [] then some Kind.dir else (t.find? (fun e => e.1 = k)).map (·.2)

/-- The entries of the directory `d`: name and kind. -/
def Tree.children (t : Tree) (d : List (List Char)) : List (List Char × Kind) :=
  t.filterMap (fun e =>
    match e.1.getLast? with
    | some name => if e.1.dropLast = d then some (name, e.2) else none
    | none => none)

/-- C `mkdir(path, 0755)`: `none` for the result `-1` (something stands at the
path already, or its parent is no directory). -/
def mkdir (t : Tree) (path : List Char) : Option Tree :=
  match resolve path with
  | some k =>
    if k ≠ [] ∧ t.kind k = none ∧ t.kind k.dropLast = some Kind.dir
    then some (t ++ [(k, Kind.dir)]) else none
  | none => none

/-- C `rmdir(path)`: the directory is removed when it is empty, otherwise the
call fails and the tree is as before. -/
def rmdir (t : Tree) (path : List Char) : Tree :=
  match resolve path with
  | some k =>
    if k ≠ [] ∧ t.kind k = some Kind.dir ∧ t.children k = []
    then t.filter (fun e => e.1 ≠ k) else t
  | none => t

/-- C `remove(path)`: a file is unlinked, a directory is removed as by
`rmdir`; when the call fails the tree is as before. -/
def remove (t : Tree) (path : List Char) : Tree :=
  match resolve path with
  | some k =>
    match t.kind k with
    | some (Kind.file _) => t.filter (fun e => e.1 ≠ k)
    | _ => rmdir t path
  | none => t

/-- An entry as `readdir` gives it: `d_name`, and whether `d_type` is
`DT_DIR`. -/
structure Dirent where
  d_name : List Char
  is_dir : Bool
deriving DecidableEq, Repr

/-- C `opendir(dirpath)` with the entries `readdir` will give, `.` and `..`
first; `none` when `dirpath` is no directory. -/
def opendir (t : Tree) (dirpath : List Char) : Option (List Dirent) :=
  match resolve dirpath with
  | some k =>
    if t.kind k = some Kind.dir then
      some ({ d_name := ['.'], is_dir := true } :: { d_name := ['.', '.'], is_dir := true } ::
        (t.children k).map (fun e => { d_name := e.1, is_dir := decide (e.2 = Kind.dir) }))
    else none
  | none => none

/-- C `strncmp(a, b, n) == 0` on NUL-terminated strings. -/
def strncmp_eq : List Char → List Char → Nat → Bool
  | _, _, 0 => true
  | a, b, n + 1 =>
    if a.headD NUL ≠ b.headD NUL then false
    else if a.headD NUL = NUL then true
    else strncmp_eq a.tail b.tail n

/-- The macro `CMP(a, b)`: `strncmp(a, b, strlen(b)) == 0`. -/
def CMP (a b : List Char) : Bool := strncmp_eq a b (strlen b)

/-- The function `rm_rf` (lines 33-59); `fuel` bounds the depth of the
recursion. -/
def rm_rf : Nat → Tree → List Char → Tree
  | 0, t, _ => t
  | fuel + 1, t, dirpath =>
    match opendir t dirpath with
    | some d =>
      let t1 := d.foldl
        (fun t de =>
          if CMP (de.d_name ++ [NUL]) ['.', NUL] || CMP (de.d_name ++ [NUL]) ['.', '.', NUL]
          then t
          else
            let path_buf := snprintf_path 256 dirpath (de.d_name ++ [NUL])
            if de.is_dir then rm_rf fuel t path_buf else remove t path_buf)
        t
      rmdir t1 dirpath
    | none => t

/-- The artifacts of a run put into the tree, each at the place its resolved
name stands for. -/
def store (t : Tree) (files : Files) : Tree :=
  files.foldl
    (fun t f =>
      match resolve f.1 with
      | some k =>
        if k ≠ [] ∧ t.kind k.dropLast = some Kind.dir ∧ t.kind k ≠ some Kind.dir then
          (if (t.kind k).isSome then t.map (fun e => if e.1 = k then (k, Kind.file f.2) else e)
           else t ++ [(k, Kind.file f.2)])
        else t
      | none => t)
    t

/-- The provisioning of lines 82-91: `MAKE_OUTPUT_DIR()`, and when it fails
`rm_rf(output_path)` and `MAKE_OUTPUT_DIR()` again.  The flag is false when
the second call fails too (`main` then returns 1). -/
def make_output_dir (fuel : Nat) (t : Tree) (output_path : List Char) : Bool × Tree :=
  match mkdir t output_path with
  | some t1 => (true, t1)
  | none =>
    let t1 := rm_rf fuel t output_path
    match mkdir t1 output_path with
    | some t2 => (true, t2)
    | none => (false, t1)

/-- The value of `int len = my_stat.st_size` for a file of `size` bytes: the
size modulo 2^32, read as a signed 32-bit integer. -/
def int_of_size (size : Nat) : Int :=
  if size % 2 ^ 32 < 2 ^ 31 then ((size % 2 ^ 32 : Nat) : Int)
  else ((size % 2 ^ 32 : Nat) : Int) - 2 ^ 32

/-- The function `main`: exit code and tree after the run; the code is `none`
when the process does not return from `main` (it is killed, or its behaviour
is undefined).  `argv` holds the program name and the arguments, `input` the
bytes of the file at `filepath` (`none` when `fstat` fails), `t` the tree
before the run, `stack` the bytes of stack left for the array
`char buf[len + 1]`.  The input file is taken to lie outside the output
directory, and `read` to fill the `len` bytes it is asked for. -/
def main (fuel stack : Nat) (creat_ok : CreatEnv) (argv : List (List Char))
    (input : Option (List Char)) (t : Tree) : Option Nat × Tree :=
  match argv with
  | _ :: arg :: _ =>
    let filepath := arg ++ [NUL]
    let output_path := output_path_of filepath
    let made := make_output_dir fuel t output_path
    if made.1 then
      match input with
      | some bytes =>
        let len := int_of_size bytes.length
        if len < 0 ∨ stack < len.toNat + 1 then (none, made.2)
        else
          (some 0,
            store made.2 (parse creat_ok output_path (bytes.take len.toNat)).files)
      | none => (some 1, made.2)
    else (some 1, made.2)
  | _ => (some 1, t)

/-! ## Concrete environment and inputs -/

/-- The components joined by `/`. -/
def joinSlash : List (List Char) → List Char
  | [] => []
  | [c] => c
  | c :: cs => c ++ '/' :: joinSlash cs

/-- The resolved form of a relative path when no link is involved: empty
components and `.` dropped, `..` applied; a path that leaves the working
directory is kept as it is. -/
def canon (path : List Char) : List Char :=
  match resolve path with
  | some k => joinSlash k
  | none => path

/-- An environment in which every call of `creat` succeeds and opens the
file the path resolves to. -/
def allOk : CreatEnv := fun _ path => some (canon path)

/-- The output directory of a run on the input file `f`. -/
def outDir : List Char := "fn_output_f".toList

/-- A name with which the path `fn_output_f/<name>` has exactly 127 bytes. -/
def name115 : List Char := List.replicate 115 'a'

/-- A name with which the path `fn_output_f/<name>` has 128 bytes. -/
def name116 : List Char := List.replicate 116 'a'

/-- The stack space of a process with the usual limit of 8 MiB. -/
def stack8M : Nat := 8388608

/-! # Lemmas -/

/-! ## C strings on a line followed by its terminator -/

theorem nul_ne_lparen : NUL ≠ '(' := by decide
theorem nul_ne_space : NUL ≠ ' ' := by decide
theorem nul_ne_newline : NUL ≠ '\n' := by decide

theorem set_length_append (l : List Char) (c d : Char) (rest : List Char) :
    (l ++ c :: rest).set l.length d = l ++ d :: rest := by
  induction l with
  | nil => rfl
  | cons x xs ih => simp [List.set, ih]

theorem strchr_append_found (l : List Char) (c : Char) (rest : List Char)
    (hc : c ∉ l) (hn : NUL ∉ l) : strchr (l ++ c :: rest) c = some l.length := by
  induction l with
  | nil => simp [strchr]
  | cons x xs ih =>
    simp only [List.mem_cons, not_or] at hc hn
    have hx : x ≠ c := fun h => hc.1 h.symm
    have hx0 : x ≠ NUL := fun h => hn.1 h.symm
    simp [strchr, hx, hx0, ih hc.2 hn.2]

theorem strchr_none_of_not_mem (b : List Char) (c : Char) (hc : c ∉ b) :
    strchr b c = none := by
  induction b with
  | nil => rfl
  | cons x xs ih =>
    simp only [List.mem_cons, not_or] at hc
    have hx : x ≠ c := fun h => hc.1 h.symm
    by_cases hx0 : x = NUL
    · simp [strchr, hx]
      intro h; exact absurd hx0 h
    · simp [strchr, hx, hx0, ih hc.2]

theorem strchr_append_nul_none (l : List Char) (c : Char) (rest : List Char)
    (hc : c ∉ l) (hcn : c ≠ NUL) (hn : NUL ∉ l) : strchr (l ++ NUL :: rest) c = none := by
  induction l with
  | nil => simp [strchr, Ne.symm hcn]
  | cons x xs ih =>
    simp only [List.mem_cons, not_or] at hc hn
    have hx : x ≠ c := fun h => hc.1 h.symm
    have hx0 : x ≠ NUL := fun h => hn.1 h.symm
    simp [strchr, hx, hx0, ih hc.2 hn.2]

theorem strlen_append_nul (l rest : List Char) (hn : NUL ∉ l) :
    strlen (l ++ NUL :: rest) = l.length := by
  induction l with
  | nil => simp [strlen]
  | cons x xs ih =>
    simp only [List.mem_cons, not_or] at hn
    have hx0 : x ≠ NUL := fun h => hn.1 h.symm
    simp [strlen, hx0, ih hn.2]

theorem cstr_append_nul (l rest : List Char) (hn : NUL ∉ l) :
    cstr (l ++ NUL :: rest) = l := by
  simp [cstr, strlen_append_nul l rest hn]

theorem strlen_of_not_mem (l : List Char) (hn : NUL ∉ l) : strlen l = l.length := by
  induction l with
  | nil => rfl
  | cons x xs ih =>
    simp only [List.mem_cons, not_or] at hn
    have hx0 : x ≠ NUL := fun h => hn.1 h.symm
    simp [strlen, hx0, ih hn.2]

theorem cstr_of_not_mem (l : List Char) (hn : NUL ∉ l) : cstr l = l := by
  simp [cstr, strlen_of_not_mem l hn]

/-! ## The two tests on a clean line -/

theorem header_test_cons (x : Char) (b : List Char) :
    header_test (x :: b) =
      if x = '(' then memcmp_eq (x :: b) ['(', ')', ' ', NUL] 4
      else if x = NUL then false else header_test b := by
  by_cases h1 : x = '('
  · simp [header_test, strchr, h1]
  · by_cases h2 : x = NUL
    · subst h2
      simp [header_test, strchr, nul_ne_lparen]
    · cases h : strchr b '(' <;> simp [header_test, strchr, h1, h2, h]

theorem memcmp_header_iff (l rest : List Char) (hn : NUL ∉ l) :
    memcmp_eq ('(' :: (l ++ NUL :: rest)) ['(', ')', ' ', NUL] 4 = true ↔ l = [')', ' '] := by
  rcases l with _ | ⟨a, _ | ⟨b, _ | ⟨c, l⟩⟩⟩
  · simp [memcmp_eq]; intro h; exact absurd h (by decide)
  · simp [memcmp_eq]; intro _ h; exact absurd h (by decide)
  · simp [memcmp_eq]
  · simp only [List.mem_cons, not_or] at hn
    simp [memcmp_eq]
    intro _ _ h; exact absurd h.symm hn.2.2.1

/-- The header test succeeds on a clean line exactly when the first `(` of
the line is followed by `) ` and the end of the line. -/
theorem header_test_iff (l rest : List Char) (hn : NUL ∉ l) :
    header_test (l ++ NUL :: rest) = true ↔
      ∃ pre, l = pre ++ ['(', ')', ' '] ∧ '(' ∉ pre := by
  induction l with
  | nil =>
    simp [header_test_cons, nul_ne_lparen]
  | cons x xs ih =>
    simp only [List.mem_cons, not_or] at hn
    have hx0 : x ≠ NUL := fun h => hn.1 h.symm
    rw [List.cons_append, header_test_cons]
    by_cases h1 : x = '('
    · subst h1
      rw [if_pos rfl, memcmp_header_iff xs rest hn.2]
      constructor
      · intro h; exact ⟨[], by simp [h]⟩
      · rintro ⟨pre, hpre, hno⟩
        cases pre with
        | nil => simpa using hpre
        | cons p ps =>
          simp only [List.cons_append, List.cons.injEq] at hpre
          exact absurd (List.mem_cons_self _ _) (hpre.1 ▸ hno)
    · rw [if_neg h1, if_neg hx0, ih hn.2]
      constructor
      · rintro ⟨pre, hpre, hno⟩
        refine ⟨x :: pre, by simp [hpre], ?_⟩
        simp only [List.mem_cons, not_or]
        exact ⟨fun h => h1 h.symm, hno⟩
      · rintro ⟨pre, hpre, hno⟩
        cases pre with
        | nil =>
          simp only [List.nil_append, List.cons.injEq] at hpre
          exact absurd hpre.1 h1
        | cons p ps =>
          simp only [List.cons_append, List.cons.injEq] at hpre
          simp only [List.mem_cons, not_or] at hno
          exact ⟨ps, hpre.2, hno.2⟩

theorem header_test_rest (l rest : List Char) (hn : NUL ∉ l) :
    header_test (l ++ NUL :: rest) = isHeader l := by
  exact Bool.eq_iff_iff.mpr ((header_test_iff l rest hn).trans (header_test_iff l [] hn).symm)

theorem isHeader_iff (l : List Char) (hn : NUL ∉ l) :
    isHeader l = true ↔ ∃ pre, l = pre ++ ['(', ')', ' '] ∧ '(' ∉ pre :=
  header_test_iff l [] hn

/-- The delimiter test succeeds on a clean line exactly when the line
starts with `{` and a space, or is `}`. -/
theorem delim_test_iff (l rest : List Char) (hn : NUL ∉ l) :
    delim_test (l ++ NUL :: rest) = true ↔
      (∃ t, l = '{' :: ' ' :: t) ∨ l = ['}'] := by
  rcases l with _ | ⟨a, _ | ⟨b, l⟩⟩
  · simp [delim_test, memcmp_eq]
    constructor <;> (intro h; exact absurd h (by decide))
  · simp [delim_test, memcmp_eq]
    intro _ h; exact absurd h (by decide)
  · simp only [List.mem_cons, not_or] at hn
    simp [delim_test, memcmp_eq]
    intro _ h; exact absurd h.symm hn.2.1

theorem delim_test_rest (l rest : List Char) (hn : NUL ∉ l) :
    delim_test (l ++ NUL :: rest) = isDelim l := by
  exact Bool.eq_iff_iff.mpr ((delim_test_iff l rest hn).trans (delim_test_iff l [] hn).symm)

theorem isDelim_iff (l : List Char) (hn : NUL ∉ l) :
    isDelim l = true ↔ (∃ t, l = '{' :: ' ' :: t) ∨ l = ['}'] :=
  delim_test_iff l [] hn

/-! ## One iteration on a clean line -/

theorem fnName_cons_space (xs : List Char) : fnName (' ' :: xs) = [] := by
  unfold fnName; rw [List.takeWhile_cons]; simp

theorem fnName_cons_ne (x : Char) (xs : List Char) (h : x ≠ ' ') :
    fnName (x :: xs) = x :: fnName xs := by
  unfold fnName; rw [List.takeWhile_cons]; simp [h]

theorem fnName_not_mem (l : List Char) : ' ' ∉ fnName l := by
  induction l with
  | nil => simp [fnName]
  | cons x xs ih =>
    by_cases h : x = ' '
    · subst h; simp [fnName_cons_space]
    · rw [fnName_cons_ne x xs h]
      simp only [List.mem_cons, not_or]
      exact ⟨Ne.symm h, ih⟩

theorem fnName_split (l : List Char) (h : ' ' ∈ l) :
    ∃ b, l = fnName l ++ ' ' :: b := by
  induction l with
  | nil => simp at h
  | cons x xs ih =>
    by_cases hx : x = ' '
    · subst hx; exact ⟨xs, by simp [fnName_cons_space]⟩
    · have hm : ' ' ∈ xs := by
        rcases List.mem_cons.mp h with h | h
        · exact absurd h.symm hx
        · exact h
      obtain ⟨b, hb⟩ := ih hm
      refine ⟨b, ?_⟩
      rw [fnName_cons_ne x xs hx, List.cons_append, ← hb]

theorem fnName_sublist_nul (l : List Char) (hn : NUL ∉ l) : NUL ∉ fnName l := by
  intro h
  exact hn ((List.takeWhile_sublist _).subset h)

theorem header_has_space (l : List Char) (hn : NUL ∉ l) (hh : isHeader l = true) :
    ' ' ∈ l := by
  obtain ⟨pre, hpre, _⟩ := (isHeader_iff l hn).mp hh
  simp [hpre]

theorem parseLine_clean (creat_ok : CreatEnv) (output_path : List Char)
    (l rest : List Char) (st : ParseState) (hl : CleanLine l) :
    parseLine creat_ok output_path (l ++ '\n' :: rest) l.length st =
      lineStep creat_ok output_path st l := by
  have hn := hl.2
  unfold parseLine lineStep
  simp only [set_length_append, header_test_rest l rest hn, delim_test_rest l rest hn,
    cstr_append_nul l rest hn]
  by_cases hh : isHeader l = true
  · simp only [hh, if_true]
    obtain ⟨b, hb⟩ := fnName_split l (header_has_space l hn hh)
    have hnn := fnName_sublist_nul l hn
    have hsp := fnName_not_mem l
    have hbuf : l ++ NUL :: rest = fnName l ++ ' ' :: (b ++ NUL :: rest) := by
      conv_lhs => rw [hb]
      simp
    generalize fnName l = a at hb hnn hsp hbuf ⊢
    rw [hbuf, strchr_append_found a ' ' _ hsp hnn]
    simp only [set_length_append]
    simp [snprintf_path, cstr_append_nul _ _ hnn, cstr_of_not_mem _ hnn]
  · simp [hh]

/-! ## The loop as a fold over the lines -/

theorem length_le_unlines (ls : List (List Char)) : ls.length ≤ (unlines ls).length := by
  induction ls with
  | nil => simp
  | cons l ls ih => simp [unlines]; omega

theorem unlines_append (as bs : List (List Char)) :
    unlines (as ++ bs) = unlines as ++ unlines bs := by
  induction as with
  | nil => rfl
  | cons a as ih => simp [unlines, ih]

theorem parseLoop_unlines (creat_ok : CreatEnv) (output_path : List Char)
    (ls : List (List Char)) (tail : List Char) (hcl : ∀ l ∈ ls, CleanLine l)
    (ht : strchr tail '\n' = none) :
    ∀ (fuel : Nat) (st : ParseState), ls.length ≤ fuel →
      parseLoop creat_ok output_path fuel (unlines ls ++ tail) st =
        ls.foldl (lineStep creat_ok output_path) st := by
  induction ls with
  | nil =>
    intro fuel st _
    cases fuel with
    | zero => rfl
    | succ n => simp [parseLoop, unlines, ht]
  | cons l ls ih =>
    intro fuel st hf
    cases fuel with
    | zero => simp at hf
    | succ n =>
      have hl : CleanLine l := hcl l (List.mem_cons_self _ _)
      have hbuf : unlines (l :: ls) ++ tail = l ++ '\n' :: (unlines ls ++ tail) := by
        simp [unlines]
      rw [hbuf, parseLoop, strchr_append_found l '\n' _ hl.1 hl.2]
      simp only [List.foldl_cons]
      rw [parseLine_clean creat_ok output_path l _ st hl]
      have hd : (l ++ '\n' :: (unlines ls ++ tail)).drop (l.length + 1) = unlines ls ++ tail := by
        rw [show l ++ '\n' :: (unlines ls ++ tail) = (l ++ ['\n']) ++ (unlines ls ++ tail) by simp]
        exact List.drop_left' (by simp)
      rw [hd]
      exact ih (fun l' h' => hcl l' (List.mem_cons_of_mem _ h')) n _ (by simpa using hf)

/-- Every run of the parser is a fold of `lineStep` over the clean lines in
front of the place where the search for a newline fails. -/
theorem parse_eq_foldl (creat_ok : CreatEnv) (output_path : List Char)
    (ls : List (List Char)) (tail : List Char) (hcl : ∀ l ∈ ls, CleanLine l)
    (ht : strchr (tail ++ [NUL]) '\n' = none) :
    parse creat_ok output_path (unlines ls ++ tail) =
      ls.foldl (lineStep creat_ok output_path) initState := by
  unfold parse
  simp only [List.append_assoc]
  apply parseLoop_unlines creat_ok output_path ls (tail ++ [NUL]) hcl ht
  have := length_le_unlines ls
  simp only [List.length_append]
  omega

/-- Every buffer is a sequence of clean lines followed by a rest in which
the search for a newline fails. -/
theorem exists_lines (b : List Char) :
    ∃ ls tail, b = unlines ls ++ tail ∧ (∀ l ∈ ls, CleanLine l) ∧
      strchr tail '\n' = none ∧ (NUL ∉ tail → '\n' ∉ tail) := by
  induction b with
  | nil => exact ⟨[], [], rfl, by simp, rfl, by simp⟩
  | cons x b ih =>
    obtain ⟨ls, tail, hb, hcl, ht, hnt⟩ := ih
    by_cases hx0 : x = NUL
    · refine ⟨[], x :: b, rfl, by simp, ?_, ?_⟩
      · subst hx0; simp [strchr, nul_ne_newline]
      · intro h; exact absurd (List.mem_cons_self _ _) (hx0 ▸ h)
    · by_cases hxn : x = '\n'
      · refine ⟨[] :: ls, tail, by simp [unlines, hb, hxn], ?_, ht, hnt⟩
        intro l hl
        rcases List.mem_cons.mp hl with h | h
        · subst h; exact ⟨by simp, by simp⟩
        · exact hcl l h
      · cases ls with
        | nil =>
          refine ⟨[], x :: tail, by simp [unlines, hb], by simp, ?_, ?_⟩
          · simp [strchr, hxn, hx0, ht]
          · intro h
            simp only [List.mem_cons, not_or] at h ⊢
            exact ⟨Ne.symm hxn, hnt h.2⟩
        | cons l ls =>
          refine ⟨(x :: l) :: ls, tail, by simp [unlines, hb], ?_, ht, hnt⟩
          intro l' hl'
          rcases List.mem_cons.mp hl' with h | h
          · subst h
            have hl := hcl l (List.mem_cons_self _ _)
            exact ⟨by simp [Ne.symm hxn, hl.1], by simp [Ne.symm hx0, hl.2]⟩
          · exact hcl l' (List.mem_cons_of_mem _ h)

/-- The fuel given by `parse` is enough: with at least as much fuel as the
buffer has bytes the loop runs until the search for a newline fails, and
more fuel changes nothing. -/
theorem parseLoop_fuel (creat_ok : CreatEnv) (output_path : List Char)
    (b : List Char) (st : ParseState) (fuel : Nat) (hf : b.length ≤ fuel) :
    parseLoop creat_ok output_path fuel b st
      = parseLoop creat_ok output_path b.length b st := by
  obtain ⟨ls, tail, hb, hcl, ht, _⟩ := exists_lines b
  have hlen : ls.length ≤ b.length := by
    have := length_le_unlines ls
    rw [hb, List.length_append]; omega
  rw [hb] at hf ⊢
  rw [parseLoop_unlines creat_ok output_path ls tail hcl ht _ st (by rw [hb] at hlen; omega),
    parseLoop_unlines creat_ok output_path ls tail hcl ht _ st (by rw [hb] at hlen; exact hlen)]

/-! ## Files -/

theorem write_at_length (c d : List Char) : write_at c c.length d = c ++ d := by
  simp [write_at]

theorem fs_lookup_creat_same (fs : Files) (p : List Char) :
    fs_lookup (fs_creat fs p) p = some [] := by
  induction fs with
  | nil => simp [fs_creat, fs_lookup]
  | cons e fs ih =>
    obtain ⟨q, c⟩ := e
    by_cases h : q = p
    · simp [fs_creat, fs_lookup, h]
    · simp [fs_creat, fs_lookup, h, ih]

theorem fs_lookup_creat_other (fs : Files) (p q : List Char) (hq : q ≠ p) :
    fs_lookup (fs_creat fs p) q = fs_lookup fs q := by
  induction fs with
  | nil => simp [fs_creat, fs_lookup, Ne.symm hq]
  | cons e fs ih =>
    obtain ⟨r, c⟩ := e
    by_cases h : r = p
    · subst h; simp [fs_creat, fs_lookup, Ne.symm hq]
    · by_cases h' : r = q
      · subst h'; simp [fs_creat, fs_lookup, h]
      · simp [fs_creat, fs_lookup, h, h', ih]

theorem fs_lookup_write_same (fs : Files) (p : List Char) (off : Nat) (d c : List Char)
    (hc : fs_lookup fs p = some c) :
    fs_lookup (fs_write fs p off d) p = some (write_at c off d) := by
  induction fs with
  | nil => simp [fs_lookup] at hc
  | cons e fs ih =>
    obtain ⟨r, c'⟩ := e
    by_cases h : r = p
    · simp [fs_lookup, h] at hc
      simp [fs_write, fs_lookup, h, hc]
    · simp [fs_lookup, h] at hc
      simp [fs_write, fs_lookup, h, ih hc]

theorem fs_lookup_write_other (fs : Files) (p q : List Char) (off : Nat) (d : List Char)
    (hq : q ≠ p) :
    fs_lookup (fs_write fs p off d) q = fs_lookup fs q := by
  induction fs with
  | nil => simp [fs_write, fs_lookup]
  | cons e fs ih =>
    obtain ⟨r, c⟩ := e
    by_cases h : r = p
    · subst h; simp [fs_write, fs_lookup, Ne.symm hq]
    · by_cases h' : r = q
      · subst h'; simp [fs_write, fs_lookup, h]
      · simp [fs_write, fs_lookup, h, h', ih]

/-! ## The three classes of line -/

theorem lineStep_header (creat_ok : CreatEnv) (out : List Char)
    (st : ParseState) (l : List Char) (h : isHeader l = true) :
    lineStep creat_ok out st l = do_creat creat_ok (snprintf_path 128 out (fnName l)) st := by
  simp [lineStep, h]

theorem lineStep_delim (creat_ok : CreatEnv) (out : List Char)
    (st : ParseState) (l : List Char) (h : isHeader l = false) (hd : isDelim l = true) :
    lineStep creat_ok out st l = st := by
  simp [lineStep, h, hd]

theorem lineStep_none (creat_ok : CreatEnv) (out : List Char)
    (st : ParseState) (l : List Char) (h : isHeader l = false)
    (hc : st.curr_fn_file = none) :
    lineStep creat_ok out st l = st := by
  simp [lineStep, h, hc]

theorem foldl_none (creat_ok : CreatEnv) (out : List Char)
    (ls : List (List Char)) (st : ParseState) (h : ∀ l ∈ ls, isHeader l = false)
    (hc : st.curr_fn_file = none) :
    ls.foldl (lineStep creat_ok out) st = st := by
  induction ls with
  | nil => rfl
  | cons l ls ih =>
    rw [List.foldl_cons, lineStep_none creat_ok out st l (h l (List.mem_cons_self _ _)) hc]
    exact ih (fun l' h' => h l' (List.mem_cons_of_mem _ h'))

theorem snprintf_path_eq (out name : List Char) (ho : NUL ∉ out) (hn : NUL ∉ name) :
    snprintf_path 128 out name = (artifactPath out name).take 127 := by
  simp [snprintf_path, artifactPath, cstr_of_not_mem _ ho, cstr_of_not_mem _ hn]

theorem ncreat_foldl (creat_ok : CreatEnv) (out : List Char)
    (ls : List (List Char)) (st : ParseState) :
    (ls.foldl (lineStep creat_ok out) st).ncreat
      = st.ncreat + (ls.filter isHeader).length := by
  induction ls generalizing st with
  | nil => simp
  | cons l ls ih =>
    rw [List.foldl_cons, ih]
    by_cases h : isHeader l = true
    · rw [lineStep_header _ _ _ _ h]
      simp only [List.filter_cons, h, if_true, List.length_cons]
      unfold do_creat
      split <;> simp <;> omega
    · simp only [Bool.not_eq_true] at h
      have : (lineStep creat_ok out st l).ncreat = st.ncreat := by
        unfold lineStep do_write
        simp only [h]
        by_cases hd : isDelim l = true
        · simp [hd]
        · cases hc : st.curr_fn_file <;> simp [hd, hc]
      simp [List.filter_cons, h, this]

/-! ## The active target -/

theorem do_creat_some (creat_ok : CreatEnv) (p f : List Char) (st : ParseState)
    (h : creat_ok st.ncreat p = some f) :
    do_creat creat_ok p st
      = { curr_fn_file := some { path := f, offset := 0 }
          files := fs_creat st.files f
          ncreat := st.ncreat + 1 } := by
  simp [do_creat, h]

theorem do_creat_none (creat_ok : CreatEnv) (p : List Char) (st : ParseState)
    (h : creat_ok st.ncreat p = none) :
    do_creat creat_ok p st
      = { curr_fn_file := none, files := st.files, ncreat := st.ncreat + 1 } := by
  simp [do_creat, h]

theorem target_creat (creat_ok : CreatEnv) (p f : List Char)
    (st : ParseState) (hok : creat_ok st.ncreat p = some f) :
    Target f [] (do_creat creat_ok p st) := by
  simp [Target, do_creat_some _ _ _ _ hok, fs_lookup_creat_same]

theorem target_write (p c d : List Char) (st : ParseState) (h : Target p c st) :
    Target p (c ++ d) (do_write d st) := by
  obtain ⟨h1, h2⟩ := h
  simp [Target, do_write, h1, fs_lookup_write_same _ _ _ _ _ h2, write_at_length]

theorem write_other (p c d q : List Char) (st : ParseState) (h : Target p c st)
    (hq : q ≠ p) : fs_lookup (do_write d st).files q = fs_lookup st.files q := by
  obtain ⟨h1, _⟩ := h
  simp [do_write, h1, fs_lookup_write_other _ _ _ _ _ hq]

theorem target_step (creat_ok : CreatEnv) (out : List Char)
    (p c l : List Char) (st : ParseState) (h : Target p c st) (hl : isHeader l = false) :
    Target p (c ++ bodyBytes l) (lineStep creat_ok out st l) ∧
      ∀ q, q ≠ p → fs_lookup (lineStep creat_ok out st l).files q = fs_lookup st.files q := by
  by_cases hd : isDelim l = true
  · rw [lineStep_delim _ _ _ _ hl hd]
    simp [bodyBytes, hd, h]
  · simp only [Bool.not_eq_true] at hd
    have hs : lineStep creat_ok out st l = do_write ['\n'] (do_write l st) := by
      simp [lineStep, hl, hd, h.1]
    rw [hs]
    have h1 := target_write p c l st h
    have h2 := target_write p (c ++ l) ['\n'] _ h1
    refine ⟨by simpa [bodyBytes, hd] using h2, ?_⟩
    intro q hq
    rw [write_other p (c ++ l) ['\n'] q _ h1 hq, write_other p c l q st h hq]

theorem unlines_filter_cons (l : List Char) (ls : List (List Char)) :
    unlines ((l :: ls).filter (fun l => !isDelim l))
      = bodyBytes l ++ unlines (ls.filter (fun l => !isDelim l)) := by
  cases hd : isDelim l <;> simp [List.filter_cons, hd, bodyBytes, unlines]

theorem target_foldl (creat_ok : CreatEnv) (out : List Char)
    (p : List Char) (body : List (List Char)) (hb : ∀ l ∈ body, isHeader l = false) :
    ∀ (c : List Char) (st : ParseState), Target p c st →
      Target p (c ++ unlines (body.filter (fun l => !isDelim l)))
          (body.foldl (lineStep creat_ok out) st) ∧
        ∀ q, q ≠ p →
          fs_lookup (body.foldl (lineStep creat_ok out) st).files q = fs_lookup st.files q := by
  induction body with
  | nil => intro c st h; simpa [unlines] using h
  | cons l ls ih =>
    intro c st h
    have hl := hb l (List.mem_cons_self _ _)
    obtain ⟨h1, h2⟩ := target_step creat_ok out p c l st h hl
    obtain ⟨h3, h4⟩ := ih (fun l' h' => hb l' (List.mem_cons_of_mem _ h')) _ _ h1
    rw [List.foldl_cons, unlines_filter_cons]
    refine ⟨by simpa [List.append_assoc] using h3, ?_⟩
    intro q hq
    rw [h4 q hq, h2 q hq]

/-! ## Files that are not the active target -/

theorem do_write_frame (p d : List Char) (st : ParseState) (h : NotTarget p st) :
    NotTarget p (do_write d st) ∧
      fs_lookup (do_write d st).files p = fs_lookup st.files p := by
  unfold do_write
  cases hc : st.curr_fn_file with
  | none => exact ⟨by simpa [hc] using h, by simp⟩
  | some f =>
    have hf := h f hc
    refine ⟨?_, ?_⟩
    · intro g hg
      simp at hg
      rw [← hg]; exact hf
    · simp [fs_lookup_write_other _ _ _ _ _ (Ne.symm hf)]

theorem do_creat_frame (creat_ok : CreatEnv) (p q : List Char)
    (st : ParseState) (hq : creat_ok st.ncreat q ≠ some p) :
    NotTarget p (do_creat creat_ok q st) ∧
      fs_lookup (do_creat creat_ok q st).files p = fs_lookup st.files p := by
  cases hok : creat_ok st.ncreat q with
  | some f =>
    have hf : f ≠ p := fun h => hq (by rw [hok, h])
    rw [do_creat_some _ _ _ _ hok]
    refine ⟨?_, fs_lookup_creat_other _ _ _ (Ne.symm hf)⟩
    intro g hg
    simp at hg
    rw [← hg]; exact hf
  | none =>
    rw [do_creat_none _ _ _ hok]
    exact ⟨by intro g hg; simp at hg, rfl⟩

theorem frame_step (creat_ok : CreatEnv) (out : List Char)
    (p l : List Char) (st : ParseState) (h : NotTarget p st)
    (hl : isHeader l = true →
      ∀ k, creat_ok k (snprintf_path 128 out (fnName l)) ≠ some p) :
    NotTarget p (lineStep creat_ok out st l) ∧
      fs_lookup (lineStep creat_ok out st l).files p = fs_lookup st.files p := by
  by_cases hh : isHeader l = true
  · rw [lineStep_header _ _ _ _ hh]
    exact do_creat_frame creat_ok p _ st (hl hh _)
  · simp only [Bool.not_eq_true] at hh
    by_cases hd : isDelim l = true
    · rw [lineStep_delim _ _ _ _ hh hd]; exact ⟨h, rfl⟩
    · by_cases hc : st.curr_fn_file = none
      · rw [lineStep_none _ _ _ _ hh hc]; exact ⟨h, rfl⟩
      · have hs : lineStep creat_ok out st l = do_write ['\n'] (do_write l st) := by
          simp [lineStep, hh, hd, hc]
        have h1 := do_write_frame p l st h
        have h2 := do_write_frame p ['\n'] _ h1.1
        rw [hs]
        exact ⟨h2.1, by rw [h2.2, h1.2]⟩

theorem frame_foldl (creat_ok : CreatEnv) (out : List Char)
    (p : List Char) (ls : List (List Char))
    (hl : ∀ l ∈ ls, isHeader l = true →
      ∀ k, creat_ok k (snprintf_path 128 out (fnName l)) ≠ some p) :
    ∀ st : ParseState, NotTarget p st →
      NotTarget p (ls.foldl (lineStep creat_ok out) st) ∧
        fs_lookup (ls.foldl (lineStep creat_ok out) st).files p = fs_lookup st.files p := by
  induction ls with
  | nil => intro st h; exact ⟨h, rfl⟩
  | cons l ls ih =>
    intro st h
    obtain ⟨h1, h2⟩ := frame_step creat_ok out p l st h (hl l (List.mem_cons_self _ _))
    obtain ⟨h3, h4⟩ := ih (fun l' h' => hl l' (List.mem_cons_of_mem _ h')) _ h1
    rw [List.foldl_cons]
    exact ⟨h3, by rw [h4, h2]⟩

/-- After a header whose creat call does not open the file `p`, and further
lines none of whose headers opens `p`, the file `p` is as it was. -/
theorem frame_after_header (creat_ok : CreatEnv) (out : List Char)
    (p : List Char) (rest : List (List Char)) (st : ParseState)
    (hl : ∀ l ∈ rest, isHeader l = true →
      ∀ k, creat_ok k (snprintf_path 128 out (fnName l)) ≠ some p)
    (hr : rest = [] ∨ ∃ h2 r, rest = h2 :: r ∧ isHeader h2 = true) :
    fs_lookup (rest.foldl (lineStep creat_ok out) st).files p = fs_lookup st.files p := by
  rcases hr with hr | ⟨h2, r, hr, hh⟩
  · subst hr; rfl
  · subst hr
    rw [List.foldl_cons, lineStep_header _ _ _ _ hh]
    have h1 := do_creat_frame creat_ok p _ st (hl h2 (List.mem_cons_self _ _) hh _)
    have h3 := frame_foldl creat_ok out p r
      (fun l' h' => hl l' (List.mem_cons_of_mem _ h')) _ h1.1
    rw [h3.2, h1.2]

/-- A list of lines splits into the lines before its first header and the
rest, which is empty or starts with a header. -/
theorem span_header (post : List (List Char)) :
    post = post.takeWhile (fun l => !isHeader l) ++ post.dropWhile (fun l => !isHeader l) ∧
      (∀ l ∈ post.takeWhile (fun l => !isHeader l), isHeader l = false) ∧
      (post.dropWhile (fun l => !isHeader l) = [] ∨
        ∃ h2 r, post.dropWhile (fun l => !isHeader l) = h2 :: r ∧ isHeader h2 = true) := by
  refine ⟨(List.takeWhile_append_dropWhile _ _).symm, ?_, ?_⟩
  · intro l hl
    have := List.mem_takeWhile_imp hl
    simpa using this
  · induction post with
    | nil => left; rfl
    | cons x xs ih =>
      by_cases hx : isHeader x = true
      · right; exact ⟨x, xs, by simp [List.dropWhile, hx], hx⟩
      · simp only [Bool.not_eq_true] at hx
        simpa [List.dropWhile, hx] using ih

/-! ## Runs of the parser -/

theorem parse_buf (creat_ok : CreatEnv) (out : List Char)
    (input : List Char) (ls : List (List Char)) (tail : List Char)
    (hb : input ++ [NUL] = unlines ls ++ tail) (hcl : ∀ l ∈ ls, CleanLine l)
    (ht : strchr tail '\n' = none) :
    parse creat_ok out input = ls.foldl (lineStep creat_ok out) initState := by
  unfold parse
  simp only [hb]
  apply parseLoop_unlines creat_ok out ls tail hcl ht
  have := length_le_unlines ls
  simp only [List.length_append]
  omega

theorem strchr_append_of_nul (b x : List Char) (c : Char) (h : NUL ∈ b) :
    strchr (b ++ x) c = strchr b c := by
  induction b with
  | nil => simp at h
  | cons y ys ih =>
    by_cases hy : y = c
    · simp [strchr, hy]
    · by_cases hy0 : y = NUL
      · simp [strchr, hy, hy0]
      · have hm : NUL ∈ ys := by
          rcases List.mem_cons.mp h with h | h
          · exact absurd h.symm hy0
          · exact h
        simp [strchr, hy, hy0, ih hm]

/-- The state after a header and the lines that follow it up to the next
header: the artifact of the header is the active target and holds the
bytes of these lines, every other file is as it was before the header. -/
theorem segment (creat_ok : CreatEnv) (out : List Char)
    (pre body : List (List Char)) (h f : List Char) (hh : isHeader h = true)
    (hb : ∀ l ∈ body, isHeader l = false)
    (hok : creat_ok (pre.filter isHeader).length (snprintf_path 128 out (fnName h)) = some f) :
    Target f (unlines (body.filter (fun l => !isDelim l)))
        ((pre ++ h :: body).foldl (lineStep creat_ok out) initState) ∧
      ∀ q, q ≠ f →
        fs_lookup ((pre ++ h :: body).foldl (lineStep creat_ok out) initState).files q
          = fs_lookup (pre.foldl (lineStep creat_ok out) initState).files q := by
  rw [List.foldl_append, List.foldl_cons, lineStep_header _ _ _ _ hh]
  have hn : (pre.foldl (lineStep creat_ok out) initState).ncreat
      = (pre.filter isHeader).length := by
    rw [ncreat_foldl]; simp [initState]
  have hok' : creat_ok (pre.foldl (lineStep creat_ok out) initState).ncreat
      (snprintf_path 128 out (fnName h)) = some f := by rw [hn]; exact hok
  have h1 := target_creat creat_ok (snprintf_path 128 out (fnName h)) f
    (pre.foldl (lineStep creat_ok out) initState) hok'
  obtain ⟨h2, h3⟩ := target_foldl creat_ok out _ body hb [] _ h1
  refine ⟨by simpa using h2, ?_⟩
  intro q hq
  rw [h3 q hq, do_creat_some _ _ _ _ hok']
  exact fs_lookup_creat_other _ _ _ hq

theorem parse_lines (creat_ok : CreatEnv) (out : List Char)
    (ls : List (List Char)) (tail : List Char) (hcl : ∀ l ∈ ls, CleanLine l)
    (ht : '\n' ∉ tail) :
    parse creat_ok out (unlines ls ++ tail) = ls.foldl (lineStep creat_ok out) initState := by
  apply parse_buf creat_ok out _ ls (tail ++ [NUL]) (by simp) hcl
  apply strchr_none_of_not_mem
  simp [ht, Ne.symm nul_ne_newline]

theorem final_artifact (creat_ok : CreatEnv) (out : List Char)
    (pre post : List (List Char)) (h tail f : List Char)
    (hcl : ∀ l ∈ pre ++ h :: post, CleanLine l) (ht : '\n' ∉ tail)
    (hh : isHeader h = true)
    (hok : creat_ok (pre.filter isHeader).length (snprintf_path 128 out (fnName h)) = some f)
    (hlater : ∀ l ∈ post, isHeader l = true →
      ∀ k, creat_ok k (snprintf_path 128 out (fnName l)) ≠ some f) :
    fs_lookup (parse creat_ok out (unlines (pre ++ h :: post) ++ tail)).files f
      = some (unlines ((post.takeWhile (fun l => !isHeader l)).filter (fun l => !isDelim l))) := by
  rw [parse_lines creat_ok out _ tail hcl ht]
  obtain ⟨hsplit, hbody, hrest⟩ := span_header post
  have hseg := segment creat_ok out pre (post.takeWhile (fun l => !isHeader l)) h f hh hbody hok
  have e : pre ++ h :: post = (pre ++ h :: post.takeWhile (fun l => !isHeader l))
      ++ post.dropWhile (fun l => !isHeader l) := by
    conv_lhs => rw [hsplit]
    simp
  rw [e, List.foldl_append]
  rw [frame_after_header creat_ok out _ _ _ ?_ hrest]
  · exact hseg.1.2
  · intro l hl hhl
    exact hlater l ((List.dropWhile_sublist _).subset hl) hhl

/-! ## Well-formed blocks -/

theorem fnName_append_space (n rest : List Char) (h : ' ' ∉ n) :
    fnName (n ++ ' ' :: rest) = n := by
  induction n with
  | nil => simp [fnName_cons_space]
  | cons x xs ih =>
    simp only [List.mem_cons, not_or] at h
    rw [List.cons_append, fnName_cons_ne x _ (Ne.symm h.1), ih h.2]

theorem block_header (b : Block) (hw : b.WellFormed) :
    CleanLine (b.name ++ [' ', '(', ')', ' ']) ∧
      isHeader (b.name ++ [' ', '(', ')', ' ']) = true ∧
      fnName (b.name ++ [' ', '(', ')', ' ']) = b.name := by
  obtain ⟨hc, hs, hp, _⟩ := hw
  have hcl : CleanLine (b.name ++ [' ', '(', ')', ' ']) := by
    refine ⟨?_, ?_⟩
    · simp only [List.mem_append, not_or]; exact ⟨hc.1, by decide⟩
    · simp only [List.mem_append, not_or]; exact ⟨hc.2, by decide⟩
  refine ⟨hcl, ?_, fnName_append_space _ _ hs⟩
  rw [isHeader_iff _ hcl.2]
  refine ⟨b.name ++ [' '], by simp, ?_⟩
  simp only [List.mem_append, not_or]
  exact ⟨hp, by decide⟩

theorem block_lines_clean (b : Block) (hw : b.WellFormed) : ∀ l ∈ b.lines, CleanLine l := by
  intro l hl
  simp only [Block.lines, List.mem_cons, List.mem_append, List.mem_singleton,
    List.not_mem_nil, or_false] at hl
  rcases hl with h | h | h | h
  · rw [h]; exact (block_header b hw).1
  · rw [h]; exact ⟨by decide, by decide⟩
  · exact (hw.2.2.2 l h).1
  · rw [h]; exact ⟨by decide, by decide⟩

theorem blocksLines_clean (bs : List Block) (hw : ∀ b ∈ bs, b.WellFormed) :
    ∀ l ∈ blocksLines bs, CleanLine l := by
  induction bs with
  | nil => intro l hl; simp [blocksLines] at hl
  | cons b bs ih =>
    intro l hl
    simp only [blocksLines, List.mem_append] at hl
    rcases hl with h | h
    · exact block_lines_clean b (hw b (List.mem_cons_self _ _)) l h
    · exact ih (fun b' h' => hw b' (List.mem_cons_of_mem _ h')) l h

/-! ## The last file of the directory as the active target -/

theorem fs_creat_fresh (fs : Files) (p : List Char) (h : p ∉ fs.map Prod.fst) :
    fs_creat fs p = fs ++ [(p, [])] := by
  induction fs with
  | nil => rfl
  | cons e fs ih =>
    obtain ⟨q, c⟩ := e
    simp only [List.map_cons, List.mem_cons, not_or] at h
    simp [fs_creat, Ne.symm h.1, ih h.2]

theorem fs_write_last (fs : Files) (p c d : List Char) (off : Nat)
    (h : p ∉ fs.map Prod.fst) :
    fs_write (fs ++ [(p, c)]) p off d = fs ++ [(p, write_at c off d)] := by
  induction fs with
  | nil => simp [fs_write]
  | cons e fs ih =>
    obtain ⟨q, c'⟩ := e
    simp only [List.map_cons, List.mem_cons, not_or] at h
    simp [fs_write, Ne.symm h.1, ih h.2]

theorem last_write (fs0 : Files) (p c d : List Char) (st : ParseState)
    (hp : p ∉ fs0.map Prod.fst) (h : LastTarget fs0 p c st) :
    LastTarget fs0 p (c ++ d) (do_write d st) := by
  obtain ⟨h1, h2⟩ := h
  simp [LastTarget, do_write, h1, h2, fs_write_last _ _ _ _ _ hp, write_at_length]

theorem last_foldl (creat_ok : CreatEnv) (out : List Char)
    (fs0 : Files) (p : List Char) (hp : p ∉ fs0.map Prod.fst) (body : List (List Char))
    (hb : ∀ l ∈ body, isHeader l = false ∧ isDelim l = false) :
    ∀ (c : List Char) (st : ParseState), LastTarget fs0 p c st →
      LastTarget fs0 p (c ++ unlines body) (body.foldl (lineStep creat_ok out) st) := by
  induction body with
  | nil => intro c st h; simpa [unlines] using h
  | cons l ls ih =>
    intro c st h
    obtain ⟨hl1, hl2⟩ := hb l (List.mem_cons_self _ _)
    have hs : lineStep creat_ok out st l = do_write ['\n'] (do_write l st) := by
      simp [lineStep, hl1, hl2, h.2]
    have h1 := last_write fs0 p (c ++ l) ['\n'] _ hp (last_write fs0 p c l st hp h)
    rw [List.foldl_cons, hs]
    have h2 := ih (fun l' h' => hb l' (List.mem_cons_of_mem _ h')) _ _ h1
    simpa [unlines, List.append_assoc] using h2

theorem block_foldl (creat_ok : CreatEnv) (out : List Char)
    (b : Block) (hw : b.WellFormed) (ho : NUL ∉ out)
    (hfit : (artifactPath out b.name).length ≤ 127)
    (st : ParseState)
    (hok : creat_ok st.ncreat (artifactPath out b.name) = some (artifactPath out b.name))
    (hp : artifactPath out b.name ∉ st.files.map Prod.fst) :
    (b.lines.foldl (lineStep creat_ok out) st).files = st.files ++ [b.artifact out] ∧
      (b.lines.foldl (lineStep creat_ok out) st).ncreat = st.ncreat + 1 := by
  obtain ⟨hcl, hh, hn⟩ := block_header b hw
  have hpath : snprintf_path 128 out (fnName (b.name ++ [' ', '(', ')', ' ']))
      = artifactPath out b.name := by
    rw [hn, snprintf_path_eq out b.name ho hw.1.2, List.take_of_length_le hfit]
  have hopen : isHeader ['{', ' '] = false ∧ isDelim ['{', ' '] = true := by decide
  have hclose : isHeader ['}'] = false ∧ isDelim ['}'] = true := by decide
  have hnc : (b.lines.foldl (lineStep creat_ok out) st).ncreat = st.ncreat + 1 := by
    rw [ncreat_foldl]
    have hbody : b.body.filter isHeader = [] := by
      rw [List.filter_eq_nil_iff]
      intro l hl
      simp [(hw.2.2.2 l hl).2.1]
    simp [Block.lines, List.filter_cons, hh, hopen.1, hclose.1, hbody]
  refine ⟨?_, hnc⟩
  unfold Block.lines
  rw [List.foldl_cons, List.foldl_cons, List.foldl_append, List.foldl_cons, List.foldl_nil,
    lineStep_header _ _ _ _ hh, hpath]
  have h0 : LastTarget st.files (artifactPath out b.name) []
      (do_creat creat_ok (artifactPath out b.name) st) := by
    simp [LastTarget, do_creat_some _ _ _ _ hok, fs_creat_fresh _ _ hp]
  rw [lineStep_delim _ _ _ _ hopen.1 hopen.2]
  have h1 := last_foldl creat_ok out st.files _ hp b.body
    (fun l hl => (hw.2.2.2 l hl).2) [] _ h0
  rw [lineStep_delim _ _ _ _ hclose.1 hclose.2]
  simpa [Block.artifact] using h1.1

theorem artifactPath_inj (out a b : List Char) (h : artifactPath out a = artifactPath out b) :
    a = b := by
  unfold artifactPath at h
  have := List.append_cancel_left h
  simpa using this

theorem blocks_foldl (creat_ok : CreatEnv) (out : List Char)
    (ho : NUL ∉ out) (bs : List Block) :
    (∀ b ∈ bs, b.WellFormed) →
    (∀ b ∈ bs, (artifactPath out b.name).length ≤ 127) →
    (∀ b ∈ bs, ∀ k, creat_ok k (artifactPath out b.name) = some (artifactPath out b.name)) →
    (bs.map Block.name).Nodup →
    ∀ st : ParseState, (∀ b ∈ bs, artifactPath out b.name ∉ st.files.map Prod.fst) →
      ((blocksLines bs).foldl (lineStep creat_ok out) st).files
        = st.files ++ bs.map (Block.artifact out) := by
  induction bs with
  | nil => intro _ _ _ _ st _; simp [blocksLines]
  | cons b bs ih =>
    intro hw hfit hok hnd st hfresh
    have hb := (block_foldl creat_ok out b (hw b (List.mem_cons_self _ _)) ho
      (hfit b (List.mem_cons_self _ _)) st (hok b (List.mem_cons_self _ _) _)
      (hfresh b (List.mem_cons_self _ _))).1
    rw [List.map_cons, List.nodup_cons] at hnd
    simp only [blocksLines, List.foldl_append]
    rw [ih (fun b' h' => hw b' (List.mem_cons_of_mem _ h'))
      (fun b' h' => hfit b' (List.mem_cons_of_mem _ h'))
      (fun b' h' => hok b' (List.mem_cons_of_mem _ h')) hnd.2, hb]
    · simp
    · intro b' hb'
      rw [hb]
      simp only [List.map_append, List.mem_append, not_or, List.map_cons, List.map_nil,
        List.mem_singleton, Block.artifact]
      refine ⟨hfresh b' (List.mem_cons_of_mem _ hb'), ?_⟩
      intro he
      have := artifactPath_inj out _ _ he
      exact hnd.1 (this ▸ List.mem_map_of_mem Block.name hb')

/-! ## What the artifacts are made of -/

theorem inv_init : Inv initState := by
  refine ⟨by simp [initState], ?_⟩
  intro p c h
  simp [initState, fs_lookup] at h

theorem inv_creat (creat_ok : CreatEnv) (p : List Char) (st : ParseState)
    (h : Inv st) : Inv (do_creat creat_ok p st) := by
  cases hok : creat_ok st.ncreat p with
  | some f' =>
    rw [do_creat_some _ _ _ _ hok]
    refine ⟨?_, ?_⟩
    · intro f hf
      simp at hf
      subst hf
      exact ⟨[], fs_lookup_creat_same _ _, rfl⟩
    · intro q c hq
      by_cases hqp : q = f'
      · subst hqp
        simp only at hq
        rw [fs_lookup_creat_same] at hq
        simp at hq
        exact ⟨[], by simp [← hq, unlines], by simp⟩
      · simp only at hq
        rw [fs_lookup_creat_other _ _ _ hqp] at hq
        exact h.2 q c hq
  | none =>
    rw [do_creat_none _ _ _ hok]
    exact ⟨by intro f hf; simp at hf, h.2⟩

theorem unlines_concat (ls : List (List Char)) (l : List Char) :
    unlines (ls ++ [l]) = unlines ls ++ (l ++ ['\n']) := by
  rw [unlines_append]; simp [unlines]

theorem inv_step (creat_ok : CreatEnv) (out : List Char)
    (st : ParseState) (l : List Char) (hl : CleanLine l) (h : Inv st) :
    Inv (lineStep creat_ok out st l) := by
  by_cases hh : isHeader l = true
  · rw [lineStep_header _ _ _ _ hh]; exact inv_creat _ _ _ h
  · simp only [Bool.not_eq_true] at hh
    by_cases hd : isDelim l = true
    · rw [lineStep_delim _ _ _ _ hh hd]; exact h
    · simp only [Bool.not_eq_true] at hd
      cases hc : st.curr_fn_file with
      | none => rw [lineStep_none _ _ _ _ hh hc]; exact h
      | some f =>
        obtain ⟨c, hc1, hc2⟩ := h.1 f hc
        have ht : Target f.path c st := by
          refine ⟨?_, hc1⟩
          rw [hc, ← hc2]
        obtain ⟨h1, h2⟩ := target_step creat_ok out f.path c l st ht hh
        refine ⟨?_, ?_⟩
        · intro g hg
          rw [h1.1] at hg
          simp at hg
          subst hg
          exact ⟨_, h1.2, by simp⟩
        · intro q c' hq
          by_cases hqp : q = f.path
          · subst hqp
            rw [h1.2] at hq
            simp at hq
            obtain ⟨ls, hls, hall⟩ := h.2 _ c hc1
            refine ⟨ls ++ [l], ?_, ?_⟩
            · rw [← hq, unlines_concat, hls]; simp [bodyBytes, hd]
            · intro l' hl'
              rcases List.mem_append.mp hl' with h' | h'
              · exact hall l' h'
              · simp at h'; subst h'; exact ⟨hl.1, hd⟩
          · rw [h2 q hqp] at hq
            exact h.2 q c' hq

theorem inv_foldl (creat_ok : CreatEnv) (out : List Char)
    (ls : List (List Char)) (hcl : ∀ l ∈ ls, CleanLine l) :
    ∀ st : ParseState, Inv st → Inv (ls.foldl (lineStep creat_ok out) st) := by
  induction ls with
  | nil => intro st h; exact h
  | cons l ls ih =>
    intro st h
    rw [List.foldl_cons]
    exact ih (fun l' h' => hcl l' (List.mem_cons_of_mem _ h')) _
      (inv_step creat_ok out st l (hcl l (List.mem_cons_self _ _)) h)

/-- The invariant holds at the end of every run. -/
theorem inv_parse (creat_ok : CreatEnv) (out : List Char)
    (input : List Char) : Inv (parse creat_ok out input) := by
  obtain ⟨ls, tail, hb, hcl, ht, _⟩ := exists_lines (input ++ [NUL])
  rw [parse_buf creat_ok out input ls tail hb hcl ht]
  exact inv_foldl creat_ok out ls hcl _ inv_init

/-! ## The output directory name -/

theorem strrchr_append_nul_none (l : List Char) (c : Char) (rest : List Char)
    (hc : c ∉ l) (hcn : c ≠ NUL) (hn : NUL ∉ l) : strrchr (l ++ NUL :: rest) c = none := by
  induction l with
  | nil => simp [strrchr, hcn]
  | cons x xs ih =>
    simp only [List.mem_cons, not_or] at hc hn
    have hx : x ≠ c := fun h => hc.1 h.symm
    have hx0 : x ≠ NUL := fun h => hn.1 h.symm
    simp [strrchr, hx, hx0, ih hc.2 hn.2]

theorem strrchr_last (d seg : List Char) (c : Char) (rest : List Char)
    (hc : c ∉ seg) (hcn : c ≠ NUL) (hd : NUL ∉ d) (hs : NUL ∉ seg) :
    strrchr (d ++ c :: (seg ++ NUL :: rest)) c = some d.length := by
  induction d with
  | nil =>
    simp [strrchr, hcn, strrchr_append_nul_none seg c rest hc hcn hs]
  | cons x xs ih =>
    simp only [List.mem_cons, not_or] at hd
    have hx0 : x ≠ NUL := fun h => hd.1 h.symm
    simp [strrchr, hx0, ih hd.2]

theorem output_path_of_segment (seg : List Char) (hc : '/' ∉ seg) (hs : NUL ∉ seg) :
    output_path_of (seg ++ [NUL]) = ("fn_output_".toList ++ seg).take 63 := by
  unfold output_path_of
  rw [strrchr_append_nul_none seg '/' [] hc (by decide) hs]
  simp [snprintf_output, cstr_append_nul seg [] hs]

theorem output_path_of_dir_segment (d seg : List Char) (hc : '/' ∉ seg) (hd : NUL ∉ d)
    (hs : NUL ∉ seg) :
    output_path_of (d ++ '/' :: seg ++ [NUL]) = ("fn_output_".toList ++ seg).take 63 := by
  unfold output_path_of
  have e : d ++ '/' :: seg ++ [NUL] = d ++ '/' :: (seg ++ NUL :: []) := by simp
  rw [e, strrchr_last d seg '/' [] hc (by decide) hd hs]
  have hdrop : (d ++ '/' :: (seg ++ [NUL])).drop (d.length + 1) = seg ++ [NUL] := by
    rw [show d ++ '/' :: (seg ++ [NUL]) = (d ++ ['/']) ++ (seg ++ [NUL]) by simp]
    exact List.drop_left' (by simp)
  simp only [hdrop]
  simp [snprintf_output, cstr_append_nul seg [] hs]

/-! ## Inputs without header line -/

theorem store_nil (t : Tree) : store t [] = t := rfl

/-! ## A creat call that fails -/

theorem ncreat_parse_lines (creat_ok : CreatEnv) (out : List Char)
    (ls : List (List Char)) :
    (ls.foldl (lineStep creat_ok out) initState).ncreat = (ls.filter isHeader).length := by
  rw [ncreat_foldl]; simp [initState]

/-- After a header whose creat fails and lines that are no headers, no
descriptor is open and the files are those from before the header. -/
theorem failed_segment (creat_ok : CreatEnv) (out : List Char)
    (pre body : List (List Char)) (h : List Char) (hh : isHeader h = true)
    (hb : ∀ l ∈ body, isHeader l = false)
    (hfail : creat_ok (pre.filter isHeader).length (snprintf_path 128 out (fnName h)) = none) :
    ((pre ++ h :: body).foldl (lineStep creat_ok out) initState).curr_fn_file = none ∧
      ((pre ++ h :: body).foldl (lineStep creat_ok out) initState).files
        = (pre.foldl (lineStep creat_ok out) initState).files := by
  rw [List.foldl_append, List.foldl_cons, lineStep_header _ _ _ _ hh,
    do_creat_none creat_ok _ _ (by rw [ncreat_parse_lines]; exact hfail),
    foldl_none creat_ok out body _ hb rfl]
  exact ⟨rfl, rfl⟩

/-! ## The classes of line, in other words -/

theorem dropWhile_first (pre s : List Char) (c : Char) (hc : c ∉ pre) :
    (pre ++ c :: s).dropWhile (· ≠ c) = c :: s := by
  induction pre with
  | nil => simp [List.dropWhile]
  | cons x xs ih =>
    simp only [List.mem_cons, not_or] at hc
    have hx : x ≠ c := fun h => hc.1 h.symm
    simp [List.dropWhile, hx]
    simpa using ih hc.2

theorem takeWhile_not_mem (l : List Char) (c : Char) : c ∉ l.takeWhile (· ≠ c) := by
  intro h
  have := List.mem_takeWhile_imp h
  simp at this

theorem first_paren_iff (l s : List Char) :
    (∃ pre, l = pre ++ '(' :: s ∧ '(' ∉ pre) ↔ l.dropWhile (· ≠ '(') = '(' :: s := by
  constructor
  · rintro ⟨pre, rfl, hno⟩
    exact dropWhile_first pre s '(' hno
  · intro h
    refine ⟨l.takeWhile (· ≠ '('), ?_, takeWhile_not_mem l '('⟩
    rw [← h, List.takeWhile_append_dropWhile]

theorem not_header_of_earlier_paren (a b : List Char) (hn : NUL ∉ a ++ '(' :: b ++ ['(', ')', ' ']) :
    isHeader (a ++ '(' :: b ++ ['(', ')', ' ']) = false := by
  cases h : isHeader (a ++ '(' :: b ++ ['(', ')', ' ']) with
  | false => rfl
  | true =>
    exfalso
    obtain ⟨pre, hpre, hno⟩ := (isHeader_iff _ hn).mp h
    have : a ++ '(' :: b = pre := List.append_cancel_right hpre
    apply hno
    rw [← this]
    simp

theorem lineStep_not_header (creat_ok : CreatEnv) (out : List Char)
    (st : ParseState) (l : List Char) (h : isHeader l = false) :
    lineStep creat_ok out st l =
      if isDelim l then st
      else if st.curr_fn_file ≠ none then do_write ['\n'] (do_write l st) else st := by
  simp [lineStep, h]

theorem take_two_iff (l : List Char) :
    (∃ t, l = '{' :: ' ' :: t) ↔ l.take 2 = ['{', ' '] := by
  constructor
  · rintro ⟨t, rfl⟩; rfl
  · intro h
    rcases l with _ | ⟨a, _ | ⟨b, t⟩⟩
    · simp at h
    · simp at h
    · simp at h
      exact ⟨t, by rw [h.1, h.2]⟩

/-! ## The search for the first space on a header line -/

theorem header_last_space (l : List Char) (hn : NUL ∉ l) (hh : isHeader l = true) :
    ∃ pre, l = pre ++ ['(', ')', ' '] ∧ (fnName l).length ≤ pre.length + 2 := by
  obtain ⟨pre, hpre, hno⟩ := (isHeader_iff l hn).mp hh
  refine ⟨pre, hpre, ?_⟩
  obtain ⟨b, hb⟩ := fnName_split l (header_has_space l hn hh)
  by_contra hlt
  have hlen : pre.length + 3 ≤ (fnName l).length := by omega
  have h1 : l.length = (fnName l).length + 1 + b.length := by
    conv_lhs => rw [hb]
    simp; omega
  have h2 : l.length = pre.length + 3 := by rw [hpre]; simp
  omega

theorem fnName_eq_take (l : List Char) : fnName l = l.take (fnName l).length := by
  induction l with
  | nil => simp [fnName]
  | cons x xs ih =>
    by_cases hx : x = ' '
    · subst hx; simp [fnName_cons_space]
    · rw [fnName_cons_ne x xs hx]
      simp only [List.length_cons, List.take_succ_cons]
      rw [← ih]

/-- On a clean header line the search for the first space succeeds, at the
length of the name, and the iteration calls creat for that name. -/
theorem header_space_found (out : List Char)
    (l rest : List Char) (hl : CleanLine l) (hh : isHeader l = true) :
    strchr (l ++ NUL :: rest) ' ' = some (fnName l).length ∧
      cstr ((l ++ NUL :: rest).set (fnName l).length NUL) = fnName l ∧
      creat_call out (l ++ NUL :: rest) = some (snprintf_path 128 out (fnName l), 0o755) := by
  have hn := hl.2
  obtain ⟨b, hb⟩ := fnName_split l (header_has_space l hn hh)
  have hnn := fnName_sublist_nul l hn
  have hsp := fnName_not_mem l
  have hbuf : l ++ NUL :: rest = fnName l ++ ' ' :: (b ++ NUL :: rest) := by
    conv_lhs => rw [hb]
    simp
  have hht : header_test (l ++ NUL :: rest) = true := by
    rw [header_test_rest l rest hn]; exact hh
  have h1 : strchr (l ++ NUL :: rest) ' ' = some (fnName l).length := by
    generalize fnName l = a at hb hnn hsp hbuf
    rw [hbuf, strchr_append_found a ' ' _ hsp hnn]
  have h2 : cstr ((l ++ NUL :: rest).set (fnName l).length NUL) = fnName l := by
    generalize fnName l = a at hb hnn hsp hbuf
    rw [hbuf, set_length_append, cstr_append_nul _ _ hnn]
  refine ⟨h1, h2, ?_⟩
  unfold creat_call
  rw [hht, if_pos rfl, h1]
  simp only
  congr 2
  unfold snprintf_path
  rw [h2, cstr_of_not_mem _ hnn]

/-! ## The complete lines of a text -/

theorem isDelim_eq_isBraceLine (l : List Char) (hn : NUL ∉ l) (hs : NoBracePrefix l) :
    isDelim l = isBraceLine l := by
  apply Bool.eq_iff_iff.mpr
  rw [isDelim_iff l hn, take_two_iff]
  unfold isBraceLine
  simp only [decide_eq_true_eq]
  constructor
  · rintro (h | h)
    · left; exact hs h
    · right; exact h
  · rintro (h | h)
    · left; rw [h]; rfl
    · right; exact h

theorem filter_delim_eq (body : List (List Char)) (hn : ∀ l ∈ body, NUL ∉ l)
    (hs : ∀ l ∈ body, NoBracePrefix l) :
    body.filter (fun l => !isDelim l) = body.filter (fun l => !isBraceLine l) := by
  apply List.filter_congr
  intro l hl
  rw [isDelim_eq_isBraceLine l (hn l hl) (hs l hl)]

/-! ## The size of the input -/

/-- The aliases of a path name one file: on the headers `f`, `./f`, `f` the
run leaves the one artifact `f`, with the line of the last header. -/
theorem main_alias_example :
    main 1 stack8M allOk ["prog".toList, "f".toList]
        (some "f () \nx\n./f () \ny\nf () \nz\n".toList) []
      = (some 0, [(["fn_output_f".toList], Kind.dir),
                  (["fn_output_f".toList, "f".toList], Kind.file "z\n".toList)]) := by
  decide

/-! # The claims -/

/-! ## C1 -/

set_option maxRecDepth 100000 in
/-- C1, counterexample, four inputs.  A header with a name of 116 bytes and
its body line `x`: no artifact of that name exists, the line is in the file
named by the first 115 bytes.  The headers `f` and `./f`: the name `f` is
not reused, yet the artifact `f` ends with the line of `./f`, whose path
names the same file.  A body that holds the line `{` without a space: the
line is in the artifact.  A line that ends with `() ` after an earlier `(`:
it does not end the lines of `f`. -/
theorem header_artifact_differs :
    (fnName (name116 ++ " () ".toList) = name116 ∧
      fs_lookup (parse allOk outDir (name116 ++ " () \nx\n".toList)).files
        (artifactPath outDir name116) = none ∧
      (parse allOk outDir (name116 ++ " () \nx\n".toList)).files
        = [(artifactPath outDir name115, "x\n".toList)]) ∧
    (fnName "./f () ".toList ≠ fnName "f () ".toList ∧
      fs_lookup (parse allOk outDir "f () \nx\n./f () \ny\n".toList).files
        (artifactPath outDir "f".toList) = some "y\n".toList) ∧
    fs_lookup (parse allOk outDir "f () \n\x7b\nx\n\x7d\n".toList).files
        (artifactPath outDir "f".toList) = some "\x7b\nx\n".toList ∧
    fs_lookup (parse allOk outDir "f () \nx\na(b) c () \ny\n".toList).files
        (artifactPath outDir "f".toList) = some "x\na(b) c () \ny\n".toList := by
  decide

/-- C1, amended: for an input without NUL in its complete lines and a header
line (a line that passes the header test) whose path
`<output directory>/<name>` has at most 127 bytes, whose creat call
succeeds and opens the file of that path, and whose file is opened by the
creat call of no later header, the final artifact of that name is the
concatenation of `line ++ "\n"` over the lines after the header and before
the next header, the delimiter lines `{ ` and `}` left out; nothing is said
when another of these lines starts with `{ `. -/
theorem artifact_of_unreused_header (creat_ok : CreatEnv) (out : List Char)
    (pre post : List (List Char)) (h tail : List Char)
    (hcl : ∀ l ∈ pre ++ h :: post, CleanLine l) (ht : '\n' ∉ tail) (ho : NUL ∉ out)
    (hh : isHeader h = true)
    (hfit : (artifactPath out (fnName h)).length ≤ 127)
    (hok : creat_ok (pre.filter isHeader).length (artifactPath out (fnName h))
      = some (artifactPath out (fnName h)))
    (hlater : ∀ l ∈ post, isHeader l = true →
      ∀ k, creat_ok k ((artifactPath out (fnName l)).take 127)
        ≠ some (artifactPath out (fnName h)))
    (hslip : ∀ l ∈ post.takeWhile (fun l => !isHeader l), NoBracePrefix l) :
    fs_lookup (parse creat_ok out (unlines (pre ++ h :: post) ++ tail)).files
        (artifactPath out (fnName h))
      = some (unlines ((post.takeWhile (fun l => !isHeader l)).filter
          (fun l => !isBraceLine l))) := by
  have hp : snprintf_path 128 out (fnName h) = artifactPath out (fnName h) := by
    rw [snprintf_path_eq out _ ho (fnName_sublist_nul h (hcl h (by simp)).2),
      List.take_of_length_le hfit]
  have hbody : ∀ l ∈ post.takeWhile (fun l => !isHeader l), NUL ∉ l := by
    intro l hl
    exact (hcl l (by simp [(List.takeWhile_sublist _).subset hl])).2
  rw [← filter_delim_eq _ hbody hslip]
  exact final_artifact creat_ok out pre post h tail _ hcl ht hh (by rw [hp]; exact hok)
    (by
      intro l hl hhl k
      rw [snprintf_path_eq out _ ho (fnName_sublist_nul l (hcl l (by simp [hl])).2)]
      exact hlater l hl hhl k)

/-- C1, witness: after an orphan line, the block of `f` and a header `g`,
with a partial last line, the artifact `f` holds the one body line of
`f`. -/
theorem artifact_of_unreused_header_witness :
    fs_lookup (parse allOk outDir (unlines (["echo orphan".toList] ++ "f () ".toList ::
        ["\x7b ".toList, "    a".toList, "\x7d".toList, "g () ".toList, "b".toList])
        ++ "zz".toList)).files (artifactPath outDir "f".toList)
      = some "    a\n".toList :=
  artifact_of_unreused_header allOk outDir ["echo orphan".toList]
    ["\x7b ".toList, "    a".toList, "\x7d".toList, "g () ".toList, "b".toList]
    "f () ".toList "zz".toList (by decide) (by decide) (by decide) (by decide) (by decide)
    (by decide)
    (by
      have key : ∀ l ∈ ["\x7b ".toList, "    a".toList, "\x7d".toList, "g () ".toList,
          "b".toList], isHeader l = true →
          allOk 0 ((artifactPath outDir (fnName l)).take 127)
            ≠ some (artifactPath outDir (fnName "f () ".toList)) := by decide
      intro l hl hh k
      exact key l hl hh)
    (by decide)

/-! ## C2 -/

set_option maxRecDepth 100000 in
/-- C2, counterexample, three inputs of two well-formed blocks each that give
one artifact: two blocks with the same name `f`; the blocks `f` and `./f`,
whose paths name the same file; two blocks with different names of 116
bytes, cut to the same path. -/
theorem two_blocks_one_artifact :
    (Block.WellFormed ⟨"f".toList, ["    a".toList]⟩ ∧
      Block.WellFormed ⟨"f".toList, ["    b".toList]⟩ ∧
      (parse allOk outDir (unlines (blocksLines
        [⟨"f".toList, ["    a".toList]⟩, ⟨"f".toList, ["    b".toList]⟩]))).files
        = [(artifactPath outDir "f".toList, "    b\n".toList)]) ∧
    (Block.WellFormed ⟨"./f".toList, ["    b".toList]⟩ ∧
      (parse allOk outDir (unlines (blocksLines
        [⟨"f".toList, ["    a".toList]⟩, ⟨"./f".toList, ["    b".toList]⟩]))).files
        = [(artifactPath outDir "f".toList, "    b\n".toList)]) ∧
    (Block.WellFormed ⟨name115 ++ ['b'], ["    a".toList]⟩ ∧
      Block.WellFormed ⟨name115 ++ ['c'], ["    b".toList]⟩ ∧
      (parse allOk outDir (unlines (blocksLines
        [⟨name115 ++ ['b'], ["    a".toList]⟩, ⟨name115 ++ ['c'], ["    b".toList]⟩]))).files
        = [(artifactPath outDir name115, "    b\n".toList)]) := by
  decide

/-- C2, amended: for an input made of N well-formed blocks (header
`name () `, line `{ `, body lines, line `}`) whose names are pairwise
distinct, whose paths `<output directory>/<name>` have at most 127 bytes
and whose creat calls succeed, each opening the file of its own path, the
run leaves exactly N artifacts, in the order of the blocks, each at the
path of its header and holding its body lines in order, each followed by a
newline. -/
theorem blocks_give_artifacts (creat_ok : CreatEnv) (out : List Char)
    (bs : List Block) (ho : NUL ∉ out)
    (hw : ∀ b ∈ bs, b.WellFormed)
    (hfit : ∀ b ∈ bs, (artifactPath out b.name).length ≤ 127)
    (hok : ∀ b ∈ bs, ∀ k,
      creat_ok k (artifactPath out b.name) = some (artifactPath out b.name))
    (hnd : (bs.map Block.name).Nodup) :
    (parse creat_ok out (unlines (blocksLines bs))).files = bs.map (Block.artifact out) := by
  have h := parse_lines creat_ok out (blocksLines bs) [] (blocksLines_clean bs hw) (by simp)
  rw [List.append_nil] at h
  rw [h, blocks_foldl creat_ok out ho bs hw hfit hok hnd initState (by simp [initState])]
  simp [initState]

/-- C2, witness: the blocks `f` and `g` give the artifacts `f` and `g`. -/
theorem blocks_give_artifacts_witness :
    (parse allOk outDir (unlines (blocksLines
      [⟨"f".toList, ["    a".toList, "    b".toList]⟩, ⟨"g".toList, []⟩]))).files
      = [(artifactPath outDir "f".toList, "    a\n    b\n".toList),
         (artifactPath outDir "g".toList, [])] :=
  blocks_give_artifacts allOk outDir
    [⟨"f".toList, ["    a".toList, "    b".toList]⟩, ⟨"g".toList, []⟩]
    (by decide) (by decide) (by decide)
    (by
      intro b hb k
      have key : ∀ b ∈ ([⟨"f".toList, ["    a".toList, "    b".toList]⟩, ⟨"g".toList, []⟩] :
          List Block), allOk 0 (artifactPath outDir b.name)
            = some (artifactPath outDir b.name) := by decide
      exact key b hb)
    (by decide)

/-! ## C3 -/

set_option maxRecDepth 100000 in
/-- C3, counterexample, three inputs.  The name of 115 bytes has two headers,
the last followed by the line `new`, and a later header with a name of 116
bytes is cut to the same path: the artifact holds the line `other` of that
later header.  The name `f` has two headers and a later header `./f` names
the same file: the artifact `f` holds the line of `./f`.  The last header
for `f` is followed by the line `{` without a space: the artifact holds
that line too. -/
theorem last_header_lines_replaced :
    (fnName (name115 ++ " () ".toList) = name115 ∧
      fnName (name116 ++ " () ".toList) = name116 ∧
      fs_lookup (parse allOk outDir
          (name115 ++ " () \nold\n".toList ++ name115 ++ " () \nnew\n".toList
            ++ name116 ++ " () \nother\n".toList)).files (artifactPath outDir name115)
        = some "other\n".toList) ∧
    (fnName "./f () ".toList ≠ "f".toList ∧
      fs_lookup (parse allOk outDir "f () \nold\nf () \nnew\n./f () \nother\n".toList).files
          (artifactPath outDir "f".toList)
        = some "other\n".toList) ∧
    fs_lookup (parse allOk outDir "f () \nold\nf () \n\x7b\nnew\n\x7d\n".toList).files
        (artifactPath outDir "f".toList)
      = some "\x7b\nnew\n".toList := by
  decide

/-- C3, amended: when a header for the name X occurs more than once, the
path `<output directory>/X` has at most 127 bytes, the creat call of the
last header for X succeeds and opens the file of that path, and the creat
call of no later header opens that file, the final artifact X holds exactly
the lines that follow the last header for X up to the next header or the
end of the input, the delimiter lines `{ ` and `}` left out; nothing is
said when another of these lines starts with `{ `. -/
theorem last_duplicate_header_wins (creat_ok : CreatEnv) (out : List Char)
    (pre post : List (List Char)) (h tail : List Char)
    (hcl : ∀ l ∈ pre ++ h :: post, CleanLine l) (ht : '\n' ∉ tail) (ho : NUL ∉ out)
    (hh : isHeader h = true)
    (hdup : ∃ h0 ∈ pre, isHeader h0 = true ∧ fnName h0 = fnName h)
    (hfit : (artifactPath out (fnName h)).length ≤ 127)
    (hok : creat_ok (pre.filter isHeader).length (artifactPath out (fnName h))
      = some (artifactPath out (fnName h)))
    (hlast : ∀ l ∈ post, isHeader l = true →
      ∀ k, creat_ok k ((artifactPath out (fnName l)).take 127)
        ≠ some (artifactPath out (fnName h)))
    (hslip : ∀ l ∈ post.takeWhile (fun l => !isHeader l), NoBracePrefix l) :
    fs_lookup (parse creat_ok out (unlines (pre ++ h :: post) ++ tail)).files
        (artifactPath out (fnName h))
      = some (unlines ((post.takeWhile (fun l => !isHeader l)).filter
          (fun l => !isBraceLine l))) := by
  obtain ⟨h0, _, _, _⟩ := hdup
  have hp : snprintf_path 128 out (fnName h) = artifactPath out (fnName h) := by
    rw [snprintf_path_eq out _ ho (fnName_sublist_nul h (hcl h (by simp)).2),
      List.take_of_length_le hfit]
  have hbody : ∀ l ∈ post.takeWhile (fun l => !isHeader l), NUL ∉ l := by
    intro l hl
    exact (hcl l (by simp [(List.takeWhile_sublist _).subset hl])).2
  rw [← filter_delim_eq _ hbody hslip]
  exact final_artifact creat_ok out pre post h tail _ hcl ht hh (by rw [hp]; exact hok)
    (by
      intro l hl hhl k
      rw [snprintf_path_eq out _ ho (fnName_sublist_nul l (hcl l (by simp [hl])).2)]
      exact hlast l hl hhl k)

/-- C3, witness: `f` is defined twice and `g` once in between; the artifact
`f` holds the line of the second definition only. -/
theorem last_duplicate_header_wins_witness :
    fs_lookup (parse allOk outDir (unlines (["f () ".toList, "old".toList, "g () ".toList,
        "mid".toList] ++ "f () ".toList :: ["new".toList, "\x7d".toList]) ++ [])).files
        (artifactPath outDir "f".toList)
      = some "new\n".toList :=
  last_duplicate_header_wins allOk outDir
    ["f () ".toList, "old".toList, "g () ".toList, "mid".toList]
    ["new".toList, "\x7d".toList] "f () ".toList [] (by decide) (by decide) (by decide)
    (by decide) ⟨"f () ".toList, by decide, by decide, by decide⟩ (by decide) (by decide)
    (by
      have key : ∀ l ∈ ["new".toList, "\x7d".toList], isHeader l = true →
          allOk 0 ((artifactPath outDir (fnName l)).take 127)
            ≠ some (artifactPath outDir (fnName "f () ".toList)) := by decide
      intro l hl hh k
      exact key l hl hh)
    (by decide)

/-! ## C4 -/

/-- C4, counterexample: the prefix is the one complete line holding a NUL
byte, which is no header; the run on the prefix followed by the block of
`f` stops at the NUL and leaves no artifact, the run on the block alone
leaves the artifact `f`. -/
theorem nul_line_stops_scan :
    isHeader [NUL] = false ∧
    (parse allOk outDir (unlines [[NUL]] ++ "f () \nx\n".toList)).files = [] ∧
    (parse allOk outDir "f () \nx\n".toList).files
      = [(artifactPath outDir "f".toList, "x\n".toList)] := by
  decide

/-- C4, amended: when the prefix is a sequence of complete lines without NUL
none of which is a header, the run on `prefix ++ rest` ends in the same
state (same artifacts, same active target) as the run on `rest`: no line
before the first header is written anywhere. -/
theorem lines_before_first_header_dropped (creat_ok : CreatEnv)
    (out : List Char) (pre : List (List Char)) (rest : List Char)
    (hpre : ∀ l ∈ pre, CleanLine l ∧ isHeader l = false) :
    parse creat_ok out (unlines pre ++ rest) = parse creat_ok out rest := by
  obtain ⟨ls, tail, hb, hcl, ht, _⟩ := exists_lines (rest ++ [NUL])
  have hb2 : (unlines pre ++ rest) ++ [NUL] = unlines (pre ++ ls) ++ tail := by
    rw [unlines_append, List.append_assoc, hb, List.append_assoc]
  have hcl2 : ∀ l ∈ pre ++ ls, CleanLine l := by
    intro l hl
    rcases List.mem_append.mp hl with h | h
    · exact (hpre l h).1
    · exact hcl l h
  rw [parse_buf creat_ok out _ (pre ++ ls) tail hb2 hcl2 ht,
    parse_buf creat_ok out rest ls tail hb hcl ht, List.foldl_append,
    foldl_none creat_ok out pre initState (fun l hl => (hpre l hl).2) rfl]

/-- C4, witness: `echo orphan` followed by one block gives exactly one
artifact, which does not hold `echo orphan`. -/
theorem lines_before_first_header_dropped_witness :
    parse allOk outDir (unlines ["echo orphan".toList] ++ "f () \n\x7b \n    a\n\x7d\n".toList)
        = parse allOk outDir "f () \n\x7b \n    a\n\x7d\n".toList ∧
      (parse allOk outDir "echo orphan\nf () \n\x7b \n    a\n\x7d\n".toList).files
        = [(artifactPath outDir "f".toList, "    a\n".toList)] :=
  ⟨lines_before_first_header_dropped allOk outDir ["echo orphan".toList]
    "f () \n\x7b \n    a\n\x7d\n".toList (by decide), by decide⟩

/-! ## C5 -/

/-- C5, counterexample: the line `a(b) c () ` ends with the tail `() `, yet
the header test fails on it (its first `(` is followed by `b`): the line
opens no artifact. -/
theorem later_paren_pair_not_header :
    "a(b) c () ".toList = "a(b) c ".toList ++ ['(', ')', ' '] ∧
    header_test (("a(b) c () ".toList ++ '\n' :: []).set "a(b) c () ".toList.length NUL)
      = false ∧
    (parse allOk outDir "a(b) c () \nx\n".toList).files = [] := by
  decide

/-- C5, amended: on every line (no NUL) the header test of the loop,
evaluated on the buffer whose newline has been overwritten with NUL,
succeeds if and only if the line ends with the tail `() ` and the `(` of
that tail is the first `(` of the line. -/
theorem header_iff_first_paren_tail (l rest : List Char) (hl : CleanLine l) :
    header_test ((l ++ '\n' :: rest).set l.length NUL) = true ↔
      ∃ pre, l = pre ++ ['(', ')', ' '] ∧ '(' ∉ pre := by
  rw [set_length_append]
  exact header_test_iff l rest hl.2

/-- C5, witness: `greet () ` passes the header test. -/
theorem header_iff_first_paren_tail_witness :
    header_test (("greet () ".toList ++ '\n' :: "x".toList).set "greet () ".toList.length NUL)
      = true :=
  (header_iff_first_paren_tail "greet () ".toList "x".toList (by decide)).mpr
    ⟨"greet ".toList, by decide, by decide⟩

/-! ## C6 -/

set_option maxRecDepth 100000 in
/-- C6, counterexample, three inputs.  After the header with the name of 116
bytes no artifact of that name exists: the file created and made active is
named by the first 115 bytes.  After `f` with its line `x`, the header
`./f` and the line `y`: no artifact `./f` is added, the artifact `f` is
truncated and receives `y`.  After the header `f`, the line `{` without a
space is appended to the artifact. -/
theorem header_target_differs :
    (fnName (name116 ++ " () ".toList) = name116 ∧
      parse allOk outDir (name116 ++ " () \n".toList)
        = { curr_fn_file := some { path := artifactPath outDir name115, offset := 0 }
            files := [(artifactPath outDir name115, [])]
            ncreat := 1 } ∧
      fs_lookup (parse allOk outDir (name116 ++ " () \n".toList)).files
        (artifactPath outDir name116) = none) ∧
    (fnName "./f () ".toList = "./f".toList ∧
      parse allOk outDir "f () \nx\n./f () \ny\n".toList
        = { curr_fn_file := some { path := artifactPath outDir "f".toList, offset := 2 }
            files := [(artifactPath outDir "f".toList, "y\n".toList)]
            ncreat := 2 }) ∧
    (parse allOk outDir "f () \n\x7b\n".toList).files
      = [(artifactPath outDir "f".toList, "\x7b\n".toList)] := by
  decide

/-- C6, amended: for a header line, the function name is the part of the
line before its first space; when its creat call, made on the first 127
bytes of `<output directory>/<name>`, succeeds, the file it opens (the
artifact of that name when the path has at most 127 bytes and the call
opens the file of that path) is made empty and is the active target; the
lines that follow, up to the next header, are appended to it, the
delimiter lines `{ ` and `}` left out, and every other file stays as it was
before the header; nothing is said when another of these lines starts with
`{ `. -/
theorem header_opens_sole_target (creat_ok : CreatEnv) (out : List Char)
    (pre body : List (List Char)) (h tail file : List Char)
    (hcl : ∀ l ∈ pre ++ h :: body, CleanLine l) (ht : '\n' ∉ tail) (ho : NUL ∉ out)
    (hh : isHeader h = true) (hb : ∀ l ∈ body, isHeader l = false)
    (hok : creat_ok (pre.filter isHeader).length
      ((artifactPath out (h.takeWhile (· ≠ ' '))).take 127) = some file)
    (hslip : ∀ l ∈ body, NoBracePrefix l) :
    (parse creat_ok out (unlines (pre ++ h :: body) ++ tail)).curr_fn_file.map OpenFile.path
        = some file ∧
      fs_lookup (parse creat_ok out (unlines (pre ++ h :: body) ++ tail)).files file
        = some (unlines (body.filter (fun l => !isBraceLine l))) ∧
      (∀ q, q ≠ file →
        fs_lookup (parse creat_ok out (unlines (pre ++ h :: body) ++ tail)).files q
          = fs_lookup (parse creat_ok out (unlines pre)).files q) ∧
      ((artifactPath out (h.takeWhile (· ≠ ' '))).length ≤ 127 →
        (artifactPath out (h.takeWhile (· ≠ ' '))).take 127
          = artifactPath out (h.takeWhile (· ≠ ' '))) := by
  have hp : snprintf_path 128 out (fnName h) = (artifactPath out (fnName h)).take 127 :=
    snprintf_path_eq out _ ho (fnName_sublist_nul h (hcl h (by simp)).2)
  have hcl0 : ∀ l ∈ pre, CleanLine l := fun l hl => hcl l (by simp [hl])
  have hbody : ∀ l ∈ body, NUL ∉ l := fun l hl => (hcl l (by simp [hl])).2
  have h0 := parse_lines creat_ok out pre [] hcl0 (by simp)
  rw [List.append_nil] at h0
  change creat_ok _ ((artifactPath out (fnName h)).take 127) = some file at hok
  rw [parse_lines creat_ok out _ tail hcl ht, h0]
  obtain ⟨⟨h1, h2⟩, h3⟩ := segment creat_ok out pre body h file hh hb (by rw [hp]; exact hok)
  rw [filter_delim_eq _ hbody hslip] at h2
  refine ⟨by rw [h1]; rfl, h2, h3, ?_⟩
  intro hfit
  exact List.take_of_length_le hfit

/-- C6, witness: after `g` and its line, the header `f () ` makes `f` the
active target; its two body lines go to `f` and the artifact `g` keeps
what it had. -/
theorem header_opens_sole_target_witness :
    (parse allOk outDir (unlines (["g () ".toList, "old".toList] ++ "f () ".toList ::
        ["\x7b ".toList, "    a".toList, "    b".toList]) ++ [])).curr_fn_file.map OpenFile.path
        = some (artifactPath outDir "f".toList) ∧
      fs_lookup (parse allOk outDir (unlines (["g () ".toList, "old".toList] ++
        "f () ".toList :: ["\x7b ".toList, "    a".toList, "    b".toList]) ++ [])).files
          (artifactPath outDir "f".toList) = some "    a\n    b\n".toList ∧
      fs_lookup (parse allOk outDir (unlines (["g () ".toList, "old".toList] ++
        "f () ".toList :: ["\x7b ".toList, "    a".toList, "    b".toList]) ++ [])).files
          (artifactPath outDir "g".toList) = some "old\n".toList :=
  have w := header_opens_sole_target allOk outDir ["g () ".toList, "old".toList]
    ["\x7b ".toList, "    a".toList, "    b".toList] "f () ".toList []
    (artifactPath outDir "f".toList) (by decide)
    (by decide) (by decide) (by decide) (by decide) (by decide) (by decide)
  ⟨w.1, w.2.1, (w.2.2.1 (artifactPath outDir "g".toList) (by decide)).trans (by decide)⟩

/-! ## C7 -/

/-- C7, counterexample: the line that is exactly `{` (no space after the
brace) is not discarded: after the header `f () ` it is written to the
artifact `f`. -/
theorem bare_open_brace_is_written :
    delim_test (("\x7b".toList ++ '\n' :: []).set 1 NUL) = false ∧
    (parse allOk outDir "f () \n\x7b\n".toList).files
      = [(artifactPath outDir "f".toList, "\x7b\n".toList)] := by
  decide

/-- C7, amended: a line that is exactly `{ ` (the brace and the space that
the shell prints after it) or exactly `}` is discarded: the iteration
leaves the state as it is, so no byte is written and the active target is
unchanged; and at the end of every run every artifact is made of
newline-terminated lines none of which is `{ ` or `}`. -/
theorem brace_lines_discarded (creat_ok : CreatEnv) (out : List Char) :
    (∀ (l rest : List Char) (st : ParseState), l = ['{', ' '] ∨ l = ['}'] →
      parseLine creat_ok out (l ++ '\n' :: rest) l.length st = st) ∧
    (∀ (input p c : List Char), fs_lookup (parse creat_ok out input).files p = some c →
      ∃ ls, c = unlines ls ∧ ∀ l ∈ ls, '\n' ∉ l ∧ l ≠ ['{', ' '] ∧ l ≠ ['}']) := by
  refine ⟨?_, ?_⟩
  · intro l rest st hl
    have hopen : CleanLine ['{', ' '] ∧ isHeader ['{', ' '] = false ∧
      isDelim ['{', ' '] = true := by decide
    have hclose : CleanLine ['}'] ∧ isHeader ['}'] = false ∧ isDelim ['}'] = true := by
      decide
    rcases hl with h | h
    · subst h
      rw [parseLine_clean _ _ _ _ _ hopen.1, lineStep_delim _ _ _ _ hopen.2.1 hopen.2.2]
    · subst h
      rw [parseLine_clean _ _ _ _ _ hclose.1, lineStep_delim _ _ _ _ hclose.2.1 hclose.2.2]
  · intro input p c hc
    obtain ⟨ls, hls, hall⟩ := (inv_parse creat_ok out input).2 p c hc
    refine ⟨ls, hls, ?_⟩
    intro l hl
    obtain ⟨h1, h2⟩ := hall l hl
    refine ⟨h1, ?_, ?_⟩
    · intro h; subst h; exact absurd h2 (by decide)
    · intro h; subst h; exact absurd h2 (by decide)

/-- C7, witness: in a block printed by the shell the lines `{ ` and `}`
leave the state as it is, and the artifact holds the body line only. -/
theorem brace_lines_discarded_witness :
    parseLine allOk outDir ("\x7d".toList ++ '\n' :: "x\n".toList) 1
        (parse allOk outDir "f () \n\x7b \n    a\n".toList)
      = parse allOk outDir "f () \n\x7b \n    a\n".toList ∧
    ∃ ls, "    a\n".toList = unlines ls ∧
      ∀ l ∈ ls, '\n' ∉ l ∧ l ≠ ['{', ' '] ∧ l ≠ ['}'] :=
  ⟨(brace_lines_discarded allOk outDir).1 "\x7d".toList "x\n".toList _ (Or.inr rfl),
    (brace_lines_discarded allOk outDir).2 "f () \n\x7b \n    a\n\x7d\n".toList
      (artifactPath outDir "f".toList) "    a\n".toList (by decide)⟩

/-! ## C8 -/

/-- C8, the code at the failing input: the line `{ echo hi` is no header and
its trimmed content is not a single brace, yet with the target `f` active it
is not appended: the artifact `f` stays empty, while the line `echo hi {`
is appended. -/
theorem brace_prefixed_line_dropped :
    header_test (("\x7b echo hi".toList ++ '\n' :: []).set 9 NUL) = false ∧
    delim_test (("\x7b echo hi".toList ++ '\n' :: []).set 9 NUL) = true ∧
    (parse allOk outDir "f () \n\x7b echo hi\n".toList).files
      = [(artifactPath outDir "f".toList, [])] ∧
    (parse allOk outDir "f () \necho hi \x7b\n".toList).files
      = [(artifactPath outDir "f".toList, "echo hi \x7b\n".toList)] := by
  decide

/-! ## C9 -/

/-- C9, counterexample: on the input as the claim writes it (no space after
`()` and after `{`) no line passes the header test and the run produces no
artifact. -/
theorem spec_example_no_artifact :
    parse allOk outDir
      "greet ()\n\x7b\n    echo hello\n\x7d\nfarewell ()\n\x7b\n    echo bye\n\x7d\n".toList
      = initState ∧
    initState.files = [] := by
  decide

/-- C9, amended: on the input as the shell prints it,
`greet () \n{ \n    echo hello\n}\nfarewell () \n{ \n    echo bye\n}\n`,
when both `creat` calls succeed the run produces exactly two artifacts,
`greet` with content `    echo hello\n` and `farewell` with content
`    echo bye\n` (the body lines verbatim, indentation included). -/
theorem declare_f_example (creat_ok : CreatEnv) (out : List Char)
    (ho : NUL ∉ out) (hlen : out.length ≤ 63)
    (h0 : creat_ok 0 (artifactPath out "greet".toList)
      = some (artifactPath out "greet".toList))
    (h1 : creat_ok 1 (artifactPath out "farewell".toList)
      = some (artifactPath out "farewell".toList)) :
    (parse creat_ok out
      "greet () \n\x7b \n    echo hello\n\x7d\nfarewell () \n\x7b \n    echo bye\n\x7d\n".toList).files
      = [(artifactPath out "greet".toList, "    echo hello\n".toList),
         (artifactPath out "farewell".toList, "    echo bye\n".toList)] := by
  have e : "greet () \n\x7b \n    echo hello\n\x7d\nfarewell () \n\x7b \n    echo bye\n\x7d\n".toList
      = unlines (Block.lines ⟨"greet".toList, ["    echo hello".toList]⟩
          ++ Block.lines ⟨"farewell".toList, ["    echo bye".toList]⟩) ++ [] := by
    decide
  rw [e, parse_lines creat_ok out _ [] (by decide) (by simp), List.foldl_append]
  have hfit1 : (artifactPath out "greet".toList).length ≤ 127 := by
    simp [artifactPath]; omega
  have hfit2 : (artifactPath out "farewell".toList).length ≤ 127 := by
    simp [artifactPath]; omega
  obtain ⟨f1, n1⟩ := block_foldl creat_ok out ⟨"greet".toList, ["    echo hello".toList]⟩
    (by decide) ho hfit1 initState h0 (by simp [initState])
  have hne : artifactPath out "farewell".toList ≠ artifactPath out "greet".toList := by
    intro h; exact absurd (artifactPath_inj out _ _ h) (by decide)
  obtain ⟨f2, _⟩ := block_foldl creat_ok out ⟨"farewell".toList, ["    echo bye".toList]⟩
    (by decide) ho hfit2 _ (by rw [n1]; exact h1)
    (by rw [f1]; simpa [initState, Block.artifact] using hne)
  rw [f2, f1]
  rfl

/-- C9, witness: the run for the input file `f` when every `creat`
succeeds. -/
theorem declare_f_example_witness :
    (parse allOk outDir
      "greet () \n\x7b \n    echo hello\n\x7d\nfarewell () \n\x7b \n    echo bye\n\x7d\n".toList).files
      = [("fn_output_f/greet".toList, "    echo hello\n".toList),
         ("fn_output_f/farewell".toList, "    echo bye\n".toList)] :=
  declare_f_example allOk outDir (by decide) (by decide) rfl rfl

/-! ## C10 -/

/-- C10: for every text `s` that is empty or ends with a newline and every
text `t` without newline, the run on `s ++ t` ends in the same state (same
artifacts, same active target) as the run on `s`: the trailing partial line
`t` is not processed. -/
theorem trailing_line_ignored (creat_ok : CreatEnv) (out : List Char)
    (s t : List Char) (hs : s = [] ∨ ∃ s', s = s' ++ ['\n']) (ht : '\n' ∉ t) :
    parse creat_ok out (s ++ t) = parse creat_ok out s := by
  obtain ⟨ls, tail, hb, hcl, htail, hnl⟩ := exists_lines s
  by_cases hnul : NUL ∈ tail
  · have h1 : (s ++ t) ++ [NUL] = unlines ls ++ (tail ++ (t ++ [NUL])) := by
      rw [hb]; simp
    have h2 : s ++ [NUL] = unlines ls ++ (tail ++ [NUL]) := by
      rw [hb]; simp
    rw [parse_buf creat_ok out _ ls _ h1 hcl (by rw [strchr_append_of_nul _ _ _ hnul]; exact htail),
      parse_buf creat_ok out _ ls _ h2 hcl (by rw [strchr_append_of_nul _ _ _ hnul]; exact htail)]
  · have hno := hnl hnul
    have htl : tail = [] := by
      rcases hs with hs | ⟨s', hs⟩
      · rw [hs] at hb
        exact (List.append_eq_nil.mp hb.symm).2
      · rcases List.eq_nil_or_concat tail with h | ⟨tl, x, h⟩
        · exact h
        · exfalso
          rw [hs, h, List.concat_eq_append, ← List.append_assoc] at hb
          have hx := (List.append_inj' hb rfl).2
          simp only [List.cons.injEq, and_true] at hx
          apply hno
          rw [h, List.concat_eq_append, ← hx]
          simp
    subst htl
    rw [List.append_nil] at hb
    rw [hb, parse_lines creat_ok out ls t hcl ht]
    have := parse_lines creat_ok out ls [] hcl (by simp)
    rw [List.append_nil] at this
    rw [this]

/-- C10, witness: a partial last line that looks like a header, after one
block, changes nothing. -/
theorem trailing_line_ignored_witness :
    parse allOk outDir ("f () \nx\n".toList ++ "g () ".toList)
      = parse allOk outDir "f () \nx\n".toList :=
  trailing_line_ignored allOk outDir "f () \nx\n".toList "g () ".toList
    (Or.inr ⟨"f () \nx".toList, by decide⟩) (by decide)

/-! ## C11 -/

/-- C11, counterexample: the header line `foo() ` has no space between the
name and `()`; it is not handled as a body line of the active artifact `f`
but opens the new artifact `foo()`, which then receives the line `x`. -/
theorem unseparated_header_opens_target :
    header_test (("foo() ".toList ++ '\n' :: []).set "foo() ".toList.length NUL) = true ∧
    parse allOk outDir "f () \nfoo() \nx\n".toList
      = { curr_fn_file := some { path := artifactPath outDir "foo()".toList, offset := 2 }
          files := [(artifactPath outDir "f".toList, []),
                    (artifactPath outDir "foo()".toList, "x\n".toList)]
          ncreat := 2 } := by
  decide

/-- C11, amended: a line that passes the header test always holds a space
(the one that ends the tail `() `), so no header line is without one; and a
header line with no space between its name and `()`, such as `foo() `, is
not handled as a body line: the iteration calls creat for the text before
that space, the name followed by `()`, which replaces the active target. -/
theorem header_always_opens (creat_ok : CreatEnv) (out : List Char) :
    (∀ l rest : List Char, CleanLine l →
      header_test ((l ++ '\n' :: rest).set l.length NUL) = true → ' ' ∈ l) ∧
    (∀ (name rest : List Char) (st : ParseState), CleanLine name → ' ' ∉ name → '(' ∉ name →
      header_test (((name ++ ['(', ')', ' ']) ++ '\n' :: rest).set
        (name ++ ['(', ')', ' ']).length NUL) = true ∧
      parseLine creat_ok out ((name ++ ['(', ')', ' ']) ++ '\n' :: rest)
          (name ++ ['(', ')', ' ']).length st
        = do_creat creat_ok (snprintf_path 128 out (name ++ ['(', ')'])) st) := by
  refine ⟨?_, ?_⟩
  · intro l rest hl hh
    rw [set_length_append, header_test_rest l rest hl.2] at hh
    exact header_has_space l hl.2 hh
  · intro name rest st hn hs hp
    have hcl : CleanLine (name ++ ['(', ')', ' ']) := by
      refine ⟨?_, ?_⟩
      · simp only [List.mem_append, not_or]; exact ⟨hn.1, by decide⟩
      · simp only [List.mem_append, not_or]; exact ⟨hn.2, by decide⟩
    have hh : isHeader (name ++ ['(', ')', ' ']) = true :=
      (isHeader_iff _ hcl.2).mpr ⟨name, rfl, hp⟩
    have hname : fnName (name ++ ['(', ')', ' ']) = name ++ ['(', ')'] := by
      have := fnName_append_space (name ++ ['(', ')']) [] (by
        simp only [List.mem_append, not_or]; exact ⟨hs, by decide⟩)
      simpa using this
    refine ⟨?_, ?_⟩
    · rw [set_length_append, header_test_rest _ rest hcl.2]; exact hh
    · rw [parseLine_clean _ _ _ _ _ hcl, lineStep_header _ _ _ _ hh, hname]

/-- C11, witness: with `f` active, the line `foo() ` makes `foo()` the
target. -/
theorem header_always_opens_witness :
    ' ' ∈ "f () ".toList ∧
    parseLine allOk outDir (("foo".toList ++ ['(', ')', ' ']) ++ '\n' :: "x\n".toList)
        ("foo".toList ++ ['(', ')', ' ']).length (parse allOk outDir "f () \n".toList)
      = do_creat allOk (snprintf_path 128 outDir ("foo".toList ++ ['(', ')']))
          (parse allOk outDir "f () \n".toList) :=
  ⟨(header_always_opens allOk outDir).1 "f () ".toList [] (by decide) (by decide),
    ((header_always_opens allOk outDir).2 "foo".toList "x\n".toList _ (by decide) (by decide)
      (by decide)).2⟩

/-! ## C12 -/

/-- C13, the code at the failing input: the first run on an input that
defines `f` and `.g` leaves both artifacts; the second run finds the
directory, `rm_rf` removes `f` but skips `.g`, the directory cannot be made
again, and `main` returns 1 with `f` gone. -/
theorem rerun_loses_artifacts (fuel : Nat) :
    main (fuel + 1) stack8M allOk ["prog".toList, "f".toList]
        (some "f () \nx\n.g () \ny\n".toList) []
      = (some 0, [(["fn_output_f".toList], Kind.dir),
             (["fn_output_f".toList, "f".toList], Kind.file "x\n".toList),
             (["fn_output_f".toList, ".g".toList], Kind.file "y\n".toList)]) ∧
    main (fuel + 1) stack8M allOk ["prog".toList, "f".toList]
        (some "f () \nx\n.g () \ny\n".toList)
        [(["fn_output_f".toList], Kind.dir),
         (["fn_output_f".toList, "f".toList], Kind.file "x\n".toList),
         (["fn_output_f".toList, ".g".toList], Kind.file "y\n".toList)]
      = (some 1, [(["fn_output_f".toList], Kind.dir),
             (["fn_output_f".toList, ".g".toList], Kind.file "y\n".toList)]) := by
  constructor <;> rfl

/-! ## C14 -/

/-- C14, the code at the failing input: the output directory holds the files
`.hidden` and `f`; `CMP(d_name, ".")` holds for `.hidden` as for `.`, so
`rm_rf` removes `f` only, the directory is not removed, and `main` returns 1
before parsing. -/
theorem rm_rf_skips_dot_files (fuel : Nat) :
    CMP (".hidden".toList ++ [NUL]) ['.', NUL] = true ∧
    rm_rf (fuel + 1)
        [(["fn_output_f".toList], Kind.dir),
         (["fn_output_f".toList, ".hidden".toList], Kind.file "old".toList),
         (["fn_output_f".toList, "f".toList], Kind.file "x\n".toList)] "fn_output_f".toList
      = [(["fn_output_f".toList], Kind.dir),
         (["fn_output_f".toList, ".hidden".toList], Kind.file "old".toList)] ∧
    main (fuel + 1) stack8M allOk ["prog".toList, "f".toList] (some "g () \ny\n".toList)
        [(["fn_output_f".toList], Kind.dir),
         (["fn_output_f".toList, ".hidden".toList], Kind.file "old".toList),
         (["fn_output_f".toList, "f".toList], Kind.file "x\n".toList)]
      = (some 1, [(["fn_output_f".toList], Kind.dir),
             (["fn_output_f".toList, ".hidden".toList], Kind.file "old".toList)]) := by
  refine ⟨by decide, ?_, ?_⟩ <;> rfl

/-! ## C15 -/

set_option maxRecDepth 100000 in
/-- C15, counterexample, two inputs.  Two headers with different names of 116
bytes (the common 115 bytes followed by `b` and by `c`) have the same creat
path, which is the path of neither name: both write to the one file named
by the common 115 bytes.  The headers `f` and `./f` have different names
and different creat paths of 13 and 15 bytes, and both write to the one
file `f`: the second truncates what the first wrote. -/
theorem different_names_same_file :
    (name115 ++ ['b'] ≠ name115 ++ ['c'] ∧
      creat_call outDir ((name115 ++ "b () ".toList) ++ [NUL])
        = some (artifactPath outDir name115, 0o755) ∧
      creat_call outDir ((name115 ++ "c () ".toList) ++ [NUL])
        = some (artifactPath outDir name115, 0o755) ∧
      (parse allOk outDir
          (name115 ++ "b () \n1\n".toList ++ name115 ++ "c () \n2\n".toList)).files
        = [(artifactPath outDir name115, "2\n".toList)]) ∧
    (creat_call outDir ("f () ".toList ++ [NUL]) = some ("fn_output_f/f".toList, 0o755) ∧
      creat_call outDir ("./f () ".toList ++ [NUL]) = some ("fn_output_f/./f".toList, 0o755) ∧
      (parse allOk outDir "f () \n1\n./f () \n2\n".toList).files
        = [(artifactPath outDir "f".toList, "2\n".toList)]) := by
  decide

/-- C15, amended: for every header line the iteration calls creat with mode
0755 on the first 127 bytes of `<output directory>/<function name>`, and
when the call succeeds the file it opens is made empty and becomes the
active target.  When the path has at most 127 bytes it is the path itself,
so the call names the file by the parsed function name; and two headers
with different names whose paths have at most 127 bytes, each of whose
creat calls opens the file of its own path, open different files. -/
theorem artifact_path_of_header (creat_ok : CreatEnv) (out : List Char)
    (l rest : List Char) (st : ParseState) (hl : CleanLine l) (ho : NUL ∉ out)
    (hh : header_test ((l ++ '\n' :: rest).set l.length NUL) = true) :
    creat_call out ((l ++ '\n' :: rest).set l.length NUL)
        = some ((artifactPath out (fnName l)).take 127, 0o755) ∧
      (∀ file, creat_ok st.ncreat ((artifactPath out (fnName l)).take 127) = some file →
        parseLine creat_ok out (l ++ '\n' :: rest) l.length st
          = { curr_fn_file := some { path := file, offset := 0 }
              files := fs_creat st.files file
              ncreat := st.ncreat + 1 } ∧
        fs_lookup (parseLine creat_ok out (l ++ '\n' :: rest) l.length st).files file
          = some []) ∧
      ((artifactPath out (fnName l)).length ≤ 127 →
        (artifactPath out (fnName l)).take 127 = artifactPath out (fnName l)) ∧
      (∀ (l2 rest2 : List Char) (st2 : ParseState), CleanLine l2 →
        header_test ((l2 ++ '\n' :: rest2).set l2.length NUL) = true →
        (artifactPath out (fnName l)).length ≤ 127 →
        (artifactPath out (fnName l2)).length ≤ 127 → fnName l ≠ fnName l2 →
        creat_ok st.ncreat (artifactPath out (fnName l)) = some (artifactPath out (fnName l)) →
        creat_ok st2.ncreat (artifactPath out (fnName l2))
          = some (artifactPath out (fnName l2)) →
        (parseLine creat_ok out (l ++ '\n' :: rest) l.length st).curr_fn_file
            = some { path := artifactPath out (fnName l), offset := 0 } ∧
          (parseLine creat_ok out (l2 ++ '\n' :: rest2) l2.length st2).curr_fn_file
            = some { path := artifactPath out (fnName l2), offset := 0 } ∧
          artifactPath out (fnName l) ≠ artifactPath out (fnName l2)) := by
  have step : ∀ (l rest : List Char) (st : ParseState), CleanLine l →
      header_test ((l ++ '\n' :: rest).set l.length NUL) = true →
      parseLine creat_ok out (l ++ '\n' :: rest) l.length st
        = do_creat creat_ok ((artifactPath out (fnName l)).take 127) st := by
    intro l rest st hl hh
    rw [set_length_append, header_test_rest l rest hl.2] at hh
    rw [parseLine_clean _ _ _ _ _ hl, lineStep_header _ _ _ _ hh,
      snprintf_path_eq out (fnName l) ho (fnName_sublist_nul l hl.2)]
  have hstep := step l rest st hl hh
  refine ⟨?_, ?_, ?_, ?_⟩
  · rw [set_length_append] at hh ⊢
    rw [header_test_rest l rest hl.2] at hh
    rw [(header_space_found out l rest hl hh).2.2,
      snprintf_path_eq out (fnName l) ho (fnName_sublist_nul l hl.2)]
  · intro file hfile
    rw [hstep, do_creat_some _ _ _ _ hfile]
    exact ⟨rfl, fs_lookup_creat_same _ _⟩
  · intro hfit; exact List.take_of_length_le hfit
  · intro l2 rest2 st2 hl2 hh2 h1 h2 hne hok1 hok2
    have hstep2 := step l2 rest2 st2 hl2 hh2
    rw [List.take_of_length_le h1] at hstep
    rw [List.take_of_length_le h2] at hstep2
    rw [hstep, hstep2, do_creat_some _ _ _ _ hok1, do_creat_some _ _ _ _ hok2]
    exact ⟨rfl, rfl, fun he => hne (artifactPath_inj out _ _ he)⟩

/-- C15, witness: the header `greet () ` is created at `fn_output_f/greet`
with mode 0755, and the file is empty and active after the call. -/
theorem artifact_path_of_header_witness :
    creat_call outDir (("greet () ".toList ++ '\n' :: []).set "greet () ".toList.length NUL)
        = some ("fn_output_f/greet".toList, 0o755) ∧
      parseLine allOk outDir ("greet () ".toList ++ '\n' :: []) "greet () ".toList.length
          initState
        = { curr_fn_file := some { path := "fn_output_f/greet".toList, offset := 0 }
            files := fs_creat initState.files "fn_output_f/greet".toList
            ncreat := initState.ncreat + 1 } :=
  have w := artifact_path_of_header allOk outDir "greet () ".toList [] initState (by decide)
    (by decide) (by decide)
  ⟨w.1, (w.2.1 "fn_output_f/greet".toList (by decide)).1⟩

/-! ## C16 -/

/-- C16, counterexample: for an input path of 54 bytes without `/` the
output directory name is not `fn_output_` followed by the path: it has 63
bytes, the last byte of the path is cut. -/
theorem long_input_name_cut :
    output_path_of (List.replicate 54 'x' ++ [NUL])
        = "fn_output_".toList ++ List.replicate 53 'x' ∧
      output_path_of (List.replicate 54 'x' ++ [NUL])
        ≠ "fn_output_".toList ++ List.replicate 54 'x' := by
  decide

/-- C16, amended: for every input path the output directory name is the
first 63 bytes of `fn_output_` followed by the final segment of the path
(the text after the last `/`, or the whole path when it has no `/`): the
whole of it when the segment has at most 53 bytes. -/
theorem output_path_of_input (d seg : List Char) (hc : '/' ∉ seg) (hd : NUL ∉ d)
    (hs : NUL ∉ seg) :
    output_path_of (seg ++ [NUL]) = ("fn_output_".toList ++ seg).take 63 ∧
      output_path_of (d ++ '/' :: seg ++ [NUL]) = ("fn_output_".toList ++ seg).take 63 ∧
      (seg.length ≤ 53 →
        ("fn_output_".toList ++ seg).take 63 = "fn_output_".toList ++ seg) := by
  refine ⟨output_path_of_segment seg hc hs, output_path_of_dir_segment d seg hc hd hs, ?_⟩
  intro h
  apply List.take_of_length_le
  simp only [List.length_append]
  have : "fn_output_".toList.length = 10 := by decide
  omega

/-- C16, witness: the input paths `fns.txt` and `dumps/old/fns.txt` both give
`fn_output_fns.txt`. -/
theorem output_path_of_input_witness :
    output_path_of ("fns.txt".toList ++ [NUL]) = "fn_output_fns.txt".toList ∧
      output_path_of ("dumps/old".toList ++ '/' :: "fns.txt".toList ++ [NUL])
        = "fn_output_fns.txt".toList :=
  have w := output_path_of_input "dumps/old".toList "fns.txt".toList (by decide) (by decide)
    (by decide)
  ⟨w.1.trans (by decide), w.2.1.trans (by decide)⟩

/-! ## C17 -/

/-- C17, counterexample: the creat call of `bad` fails; the later header `g`
is created, and the lines that follow it are `{` without a space and
`mine`: its artifact does not hold exactly its body line `mine`, the line
`{` is in it too. -/
theorem later_header_gets_brace_line :
    isBraceLine "\x7b".toList = false ∧
    parse (fun k path => if k = 1 then none else allOk k path) outDir
        "f () \nkept\nbad () \nlost\ng () \n\x7b\nmine\n\x7d\n".toList
      = { curr_fn_file := some { path := artifactPath outDir "g".toList, offset := 7 }
          files := [(artifactPath outDir "f".toList, "kept\n".toList),
                    (artifactPath outDir "g".toList, "\x7b\nmine\n".toList)]
          ncreat := 3 } := by
  decide

/-- C17, amended: when the creat call of a header fails, the scan goes on
with no active target: after the lines that follow, up to the next header,
no descriptor is open and every file is as it was before that header, so
these lines are written nowhere; and a later header whose creat call
succeeds becomes the active target and the file it opens holds exactly the
lines that follow it up to the next header, the delimiter lines `{ ` and
`}` left out; nothing is said when another of these lines starts with
`{ `. -/
theorem failed_creat_drops_lines (creat_ok : CreatEnv) (out : List Char)
    (pre body1 mid body2 : List (List Char)) (h1 h2 tail file : List Char)
    (hcl : ∀ l ∈ (pre ++ h1 :: body1 ++ mid) ++ h2 :: body2, CleanLine l) (ht : '\n' ∉ tail)
    (hh1 : isHeader h1 = true) (hb1 : ∀ l ∈ body1, isHeader l = false)
    (hfail : creat_ok (pre.filter isHeader).length (snprintf_path 128 out (fnName h1)) = none)
    (hh2 : isHeader h2 = true) (hb2 : ∀ l ∈ body2, isHeader l = false)
    (hok : creat_ok ((pre ++ h1 :: body1 ++ mid).filter isHeader).length
      (snprintf_path 128 out (fnName h2)) = some file)
    (hslip : ∀ l ∈ body2, NoBracePrefix l) :
    (parse creat_ok out (unlines (pre ++ h1 :: body1))).curr_fn_file = none ∧
      (parse creat_ok out (unlines (pre ++ h1 :: body1))).files
        = (parse creat_ok out (unlines pre)).files ∧
      (parse creat_ok out (unlines ((pre ++ h1 :: body1 ++ mid) ++ h2 :: body2) ++ tail)
          ).curr_fn_file.map OpenFile.path = some file ∧
      fs_lookup (parse creat_ok out
          (unlines ((pre ++ h1 :: body1 ++ mid) ++ h2 :: body2) ++ tail)).files file
        = some (unlines (body2.filter (fun l => !isBraceLine l))) := by
  have hcl1 : ∀ l ∈ pre ++ h1 :: body1, CleanLine l := by
    intro l hl
    apply hcl l
    simp only [List.mem_append, List.mem_cons] at hl ⊢
    tauto
  have hcl0 : ∀ l ∈ pre, CleanLine l := fun l hl => hcl1 l (by simp [hl])
  have hbody : ∀ l ∈ body2, NUL ∉ l := fun l hl => (hcl l (by simp [hl])).2
  have e1 := parse_lines creat_ok out (pre ++ h1 :: body1) [] hcl1 (by simp)
  have e0 := parse_lines creat_ok out pre [] hcl0 (by simp)
  rw [List.append_nil] at e1 e0
  obtain ⟨f1, f2⟩ := failed_segment creat_ok out pre body1 h1 hh1 hb1 hfail
  obtain ⟨⟨s1, s2⟩, _⟩ :=
    segment creat_ok out (pre ++ h1 :: body1 ++ mid) body2 h2 file hh2 hb2 hok
  rw [filter_delim_eq _ hbody hslip] at s2
  rw [e1, e0, parse_lines creat_ok out _ tail hcl ht]
  exact ⟨f1, f2, by rw [s1]; rfl, s2⟩

/-- C17, witness: `f` is active, the creat of `bad` fails (the second call),
its line `lost` goes nowhere and `f` keeps its line; the later header `g`
is created and receives its line. -/
theorem failed_creat_drops_lines_witness :
    (parse (fun k path => if k = 1 then none else allOk k path) outDir
        (unlines (["f () ".toList, "kept".toList] ++
          "bad () ".toList :: ["lost".toList]))).curr_fn_file = none ∧
      (parse (fun k path => if k = 1 then none else allOk k path) outDir
        (unlines (["f () ".toList, "kept".toList] ++
          "bad () ".toList :: ["lost".toList]))).files
        = [(artifactPath outDir "f".toList, "kept\n".toList)] ∧
      fs_lookup (parse (fun k path => if k = 1 then none else allOk k path) outDir (unlines
          ((["f () ".toList, "kept".toList] ++ "bad () ".toList :: ["lost".toList] ++ [])
            ++ "g () ".toList :: ["\x7b ".toList, "mine".toList, "\x7d".toList]) ++ [])).files
          (artifactPath outDir "g".toList)
        = some "mine\n".toList :=
  have w := failed_creat_drops_lines (fun k path => if k = 1 then none else allOk k path)
    outDir ["f () ".toList, "kept".toList] ["lost".toList] []
    ["\x7b ".toList, "mine".toList, "\x7d".toList]
    "bad () ".toList "g () ".toList [] (artifactPath outDir "g".toList)
    (by decide) (by decide) (by decide) (by decide)
    (by decide) (by decide) (by decide) (by decide) (by decide)
  ⟨w.1, w.2.1.trans (by decide), w.2.2.2.trans (by decide)⟩

/-! ## C18 -/

/-- C18: on every line (no NUL) the header test succeeds if and only if the
part of the line from its first `(` on is exactly `() `, that is, the first
`(` is followed by `)`, one space and the end of the line; a line that ends
with `() ` but has an earlier `(` is no header, and the iteration handles it
by the delimiter test and the body rule. -/
theorem header_test_first_paren (creat_ok : CreatEnv) (out : List Char)
    (l rest : List Char) (st : ParseState) (hl : CleanLine l) :
    (header_test ((l ++ '\n' :: rest).set l.length NUL) = true ↔
        l.dropWhile (· ≠ '(') = ['(', ')', ' ']) ∧
      ((∃ a b, l = a ++ '(' :: b ++ ['(', ')', ' ']) →
        header_test ((l ++ '\n' :: rest).set l.length NUL) = false ∧
        parseLine creat_ok out (l ++ '\n' :: rest) l.length st =
          if delim_test ((l ++ '\n' :: rest).set l.length NUL) then st
          else if st.curr_fn_file ≠ none then do_write ['\n'] (do_write l st) else st) := by
  rw [set_length_append]
  refine ⟨?_, ?_⟩
  · rw [header_test_iff l rest hl.2]
    exact first_paren_iff l [')', ' ']
  · rintro ⟨a, b, hab⟩
    have hnh : isHeader l = false := by
      rw [hab]; exact not_header_of_earlier_paren a b (hab ▸ hl.2)
    refine ⟨by rw [header_test_rest l rest hl.2]; exact hnh, ?_⟩
    rw [parseLine_clean _ _ _ _ _ hl, lineStep_not_header _ _ _ _ hnh,
      delim_test_rest l rest hl.2]

/-- C18, witness: `a(b) c () ` is no header; with the target `f` active it is
written to `f` as a body line. -/
theorem header_test_first_paren_witness :
    header_test (("a(b) c () ".toList ++ '\n' :: []).set "a(b) c () ".toList.length NUL)
        = false ∧
      (parseLine allOk outDir ("a(b) c () ".toList ++ '\n' :: []) "a(b) c () ".toList.length
          (parse allOk outDir "f () \n".toList)).files
        = [(artifactPath outDir "f".toList, "a(b) c () \n".toList)] :=
  have w := (header_test_first_paren allOk outDir "a(b) c () ".toList []
    (parse allOk outDir "f () \n".toList) (by decide)).2
    ⟨"a".toList, "b) c ".toList, by decide⟩
  ⟨w.1, by rw [w.2]; decide⟩

/-! ## C19 -/

/-- C19: for every line (no NUL) that is no header, the delimiter test
succeeds if and only if the first two bytes of the line are `{` and a space
or the line is exactly `}`; then the iteration leaves the state as it is,
and otherwise it handles the line as a body line: written, followed by a
newline, to the active target, dropped when there is none. -/
theorem delimiter_iff_brace_space (creat_ok : CreatEnv) (out : List Char)
    (l rest : List Char) (st : ParseState) (hl : CleanLine l)
    (hh : header_test ((l ++ '\n' :: rest).set l.length NUL) = false) :
    (delim_test ((l ++ '\n' :: rest).set l.length NUL) = true ↔
        (l.take 2 = ['{', ' '] ∨ l = ['}'])) ∧
      ((l.take 2 = ['{', ' '] ∨ l = ['}']) →
        parseLine creat_ok out (l ++ '\n' :: rest) l.length st = st) ∧
      (¬ (l.take 2 = ['{', ' '] ∨ l = ['}']) →
        parseLine creat_ok out (l ++ '\n' :: rest) l.length st =
          if st.curr_fn_file ≠ none then do_write ['\n'] (do_write l st) else st) := by
  rw [set_length_append] at hh ⊢
  rw [header_test_rest l rest hl.2] at hh
  have hiff : delim_test (l ++ NUL :: rest) = true ↔ (l.take 2 = ['{', ' '] ∨ l = ['}']) := by
    rw [delim_test_iff l rest hl.2, take_two_iff]
  have hd : isDelim l = true ↔ (l.take 2 = ['{', ' '] ∨ l = ['}']) := by
    rw [← delim_test_rest l rest hl.2]; exact hiff
  refine ⟨hiff, ?_, ?_⟩
  · intro h
    rw [parseLine_clean _ _ _ _ _ hl, lineStep_delim _ _ _ _ hh (hd.mpr h)]
  · intro h
    have hnd : isDelim l = false := by
      cases hx : isDelim l with
      | false => rfl
      | true => exact absurd (hd.mp hx) h
    rw [parseLine_clean _ _ _ _ _ hl, lineStep_not_header _ _ _ _ hh]
    simp [hnd]

/-- C19, witness: with the target `f` active, the bare line `{` and the
indented line `    }` are written as body lines, and the line `{ x` is
discarded. -/
theorem delimiter_iff_brace_space_witness :
    (parseLine allOk outDir ("\x7b".toList ++ '\n' :: []) "\x7b".toList.length
        (parse allOk outDir "f () \n".toList)).files
      = [(artifactPath outDir "f".toList, "\x7b\n".toList)] ∧
    (parseLine allOk outDir ("    \x7d".toList ++ '\n' :: []) "    \x7d".toList.length
        (parse allOk outDir "f () \n".toList)).files
      = [(artifactPath outDir "f".toList, "    \x7d\n".toList)] ∧
    parseLine allOk outDir ("\x7b x".toList ++ '\n' :: []) "\x7b x".toList.length
        (parse allOk outDir "f () \n".toList)
      = parse allOk outDir "f () \n".toList :=
  ⟨by rw [(delimiter_iff_brace_space allOk outDir "\x7b".toList []
        (parse allOk outDir "f () \n".toList) (by decide) (by decide)).2.2 (by decide)]
      decide,
    by rw [(delimiter_iff_brace_space allOk outDir "    \x7d".toList []
        (parse allOk outDir "f () \n".toList) (by decide) (by decide)).2.2 (by decide)]
       decide,
    (delimiter_iff_brace_space allOk outDir "\x7b x".toList []
      (parse allOk outDir "f () \n".toList) (by decide) (by decide)).2.1 (by decide)⟩

/-! ## C20 -/

/-- C20: on every line (no NUL) that passes the header test, the line holds
a space and the search for the first space succeeds, at an offset `space`
not after the last byte of the line (the space that ends `() `); the name
extracted is the part of the line before that offset, it holds no space,
and the iteration calls creat for it (one more creat call is made). -/
theorem header_space_guard (creat_ok : CreatEnv) (out : List Char)
    (l rest : List Char) (st : ParseState) (hl : CleanLine l)
    (hh : header_test ((l ++ '\n' :: rest).set l.length NUL) = true) :
    ' ' ∈ l ∧
      ∃ space, strchr ((l ++ '\n' :: rest).set l.length NUL) ' ' = some space ∧
        space + 1 ≤ l.length ∧
        cstr (((l ++ '\n' :: rest).set l.length NUL).set space NUL) = l.take space ∧
        ' ' ∉ l.take space ∧
        (∃ t, l = l.take space ++ ' ' :: t) ∧
        parseLine creat_ok out (l ++ '\n' :: rest) l.length st
          = do_creat creat_ok (snprintf_path 128 out (l.take space)) st ∧
        (parseLine creat_ok out (l ++ '\n' :: rest) l.length st).ncreat = st.ncreat + 1 := by
  rw [set_length_append] at hh ⊢
  rw [header_test_rest l rest hl.2] at hh
  obtain ⟨h1, h2, _⟩ := header_space_found out l rest hl hh
  obtain ⟨pre, hpre, hlen⟩ := header_last_space l hl.2 hh
  obtain ⟨t, ht⟩ := fnName_split l (header_has_space l hl.2 hh)
  have htake : l.take (fnName l).length = fnName l := (fnName_eq_take l).symm
  have hstep : parseLine creat_ok out (l ++ '\n' :: rest) l.length st
      = do_creat creat_ok (snprintf_path 128 out (fnName l)) st := by
    rw [parseLine_clean _ _ _ _ _ hl, lineStep_header _ _ _ _ hh]
  refine ⟨header_has_space l hl.2 hh, (fnName l).length, h1, ?_, ?_, ?_, ?_, ?_, ?_⟩
  · have : l.length = pre.length + 3 := by rw [hpre]; simp
    omega
  · rw [htake]; exact h2
  · rw [htake]; exact fnName_not_mem l
  · rw [htake]; exact ⟨t, ht⟩
  · rw [htake]; exact hstep
  · rw [hstep]
    unfold do_creat
    split <;> rfl

/-- C20, witness: on `greet () ` the first space is at offset 5, the name
is `greet`. -/
theorem header_space_guard_witness :
    ' ' ∈ "greet () ".toList ∧
      ∃ space, strchr (("greet () ".toList ++ '\n' :: []).set "greet () ".toList.length NUL) ' '
          = some space ∧
        space + 1 ≤ "greet () ".toList.length ∧
        cstr ((("greet () ".toList ++ '\n' :: []).set "greet () ".toList.length NUL).set
          space NUL) = "greet () ".toList.take space ∧
        ' ' ∉ "greet () ".toList.take space ∧
        (∃ t, "greet () ".toList = "greet () ".toList.take space ++ ' ' :: t) ∧
        parseLine allOk outDir ("greet () ".toList ++ '\n' :: []) "greet () ".toList.length
            initState
          = do_creat allOk (snprintf_path 128 outDir ("greet () ".toList.take space))
              initState ∧
        (parseLine allOk outDir ("greet () ".toList ++ '\n' :: []) "greet () ".toList.length
            initState).ncreat = initState.ncreat + 1 :=
  header_space_guard allOk outDir "greet () ".toList [] initState (by decide) (by decide)

end BashFnParse
